import Mathlib

/-!
Verification development for the resume-review HTTP service (src/main.py).

The service forwards a job description and a resume text to an external
generative model and extracts a structured six-field review from the raw
model reply.  This file gives a shallow embedding of the extraction and
validation core:

  - the fenced-block scan of `parse_gemini_response`
    (the Python regex search of three backticks + json + whitespace +
    a brace-delimited greedy group + whitespace + three backticks,
    with DOTALL, falling back to the stripped raw text),
  - a model of `json.loads` and `json.dumps` on the JSON subset the
    service exchanges (null, booleans, integer numbers, strings with
    escapes including ensure-ascii \uXXXX and surrogate pairs, arrays,
    objects); fractional and exponent number forms and lone surrogates
    are outside the modelled subset and reported as parse errors,
  - the pydantic response model `ResumeReviewResponse` as an
    all-or-nothing structural validation,
  - the `generate_gemini_review` / `review_resume` control flow,
    including the exception routing of the two `except` clauses
    (a JSON decode error is reported as a parse failure, every other
    exception - among them the empty-output HTTPException raised inside
    `generate_gemini_review` - lands in the generic failure bucket, with
    the exception rendered as in starlette, status code + colon + detail).

Strings are embedded as `List Char`.  Whitespace classes follow the
ASCII parts of the Python classes (the regex class \s and `str.strip`
use [ \t\n\r\x0b\x0c], the JSON scanner uses [ \t\n\r]); non-ASCII
whitespace does not occur in any input considered here.
-/

set_option maxRecDepth 8000

/-- ASCII part of the Python whitespace class \s used by `re` and by
`str.strip`: space, tab, newline, carriage return, vertical tab, form feed. -/
def pythonWs (c : Char) : Bool :=
  c = ' ' || c = '\t' || c = '\n' || c = '\r' || c = '\x0b' || c = '\x0c'

/-- Python `str.strip()`: drop leading and trailing whitespace. -/
def stripPy (l : List Char) : List Char :=
  ((l.dropWhile pythonWs).reverse.dropWhile pythonWs).reverse

/-- The opening token of the fenced-block pattern: three backticks + json. -/
def fenceOpen : List Char := [ '\x60', '\x60', '\x60', 'j', 's', 'o', 'n' ]

/-- The closing token of the fenced-block pattern: three backticks. -/
def fenceTicks : List Char := [ '\x60', '\x60', '\x60' ]

/-- Largest `k < bound` satisfying `p`, scanning downward.  This realises the
greedy group of the regex: the group is as long as possible. -/
def lastHit (p : Nat → Bool) : Nat → Option Nat
  | 0 => none
  | bound + 1 => if p bound then some bound else lastHit p bound

/-- Whether a group of length `n` closes a fenced block inside `r`: the group
must end with a closing brace, and after it, optional whitespace and then the
three closing backticks must follow. -/
def groupCloses (r : List Char) (n : Nat) : Bool :=
  decide ((r.take n).getLast? = some '\x7d') &&
    fenceTicks.isPrefixOf ((r.drop n).dropWhile pythonWs)

/-- One attempt of the fenced-block pattern anchored at the head of `s`.
This is the leftmost-anchored semantics of
`re.search(three-backticks + json + \s* + (brace group, greedy) + \s* +
three-backticks, ..., re.DOTALL)` at a single start offset: the literal
opening token, then the maximal whitespace run, then a group that starts
with an opening brace and extends greedily to the last closing brace that
is followed by optional whitespace and the closing backticks. -/
def fenceAt (s : List Char) : Option (List Char) :=
  if fenceOpen.isPrefixOf s then
    let r := (s.drop 7).dropWhile pythonWs
    match r.head? with
    | some c =>
      if c = '\x7b' then
        match lastHit (groupCloses r) (r.length + 1) with
        | some n => some (r.take n)
        | none => none
      else none
    | none => none
  else none

/-- The full search: try the pattern at every start offset, left to right,
and return the captured group of the first offset where it matches. -/
def findFence : List Char → Option (List Char)
  | [] => none
  | c :: t =>
    match fenceAt (c :: t) with
    | some g => some g
    | none => findFence t

/-- The candidate selection of `parse_gemini_response` (src/main.py line 47-48):
the captured group of the regex search if it matches, otherwise the whole
stripped raw text. -/
def geminiCandidate (t : List Char) : List Char :=
  match findFence t with
  | some g => g
  | none => stripPy t

/-! ### The JSON value type

Embeds the Python objects that `json.loads` produces for the service:
`None`, booleans, integers, strings, lists and dicts.  JSON numbers with a
fractional part or an exponent (Python floats) are outside the modelled
subset; no input considered in this development contains them. -/

inductive Json where
  | jnull
  | jbool (b : Bool)
  | jint (n : Int)
  | jstr (s : List Char)
  | jarr (items : List Json)
  | jobj (members : List (List Char × Json))

/-! ### The serializer, `json.dumps`

Default settings of `json.dumps`: `ensure_ascii=True` (every character
outside printable ASCII becomes a \uXXXX escape, astral characters a
surrogate pair), item separator comma + space, key separator colon + space. -/

/-- Lowercase-hex \uXXXX escape of a code unit `n < 0x10000`. -/
def uEscape (n : Nat) : List Char :=
  [ '\\', 'u', Nat.digitChar (n / 4096 % 16), Nat.digitChar (n / 256 % 16),
    Nat.digitChar (n / 16 % 16), Nat.digitChar (n % 16) ]

/-- `json.dumps` escaping of one character (the ESCAPE_ASCII table):
backslash and double quote get a backslash escape, the five named control
characters get their short escapes, other characters in printable ASCII
(0x20 to 0x7e) pass through, everything else becomes \uXXXX escapes,
as a surrogate pair beyond 0xffff. -/
def encChar (c : Char) : List Char :=
  if c = '"' then [ '\\', '"' ]
  else if c = '\\' then [ '\\', '\\' ]
  else if c = '\x08' then [ '\\', 'b' ]
  else if c = '\t' then [ '\\', 't' ]
  else if c = '\n' then [ '\\', 'n' ]
  else if c = '\x0c' then [ '\\', 'f' ]
  else if c = '\r' then [ '\\', 'r' ]
  else if 0x20 ≤ c.toNat ∧ c.toNat ≤ 0x7e then [ c ]
  else if c.toNat ≤ 0xffff then uEscape c.toNat
  else uEscape (0xd800 + (c.toNat - 0x10000) / 0x400) ++
       uEscape (0xdc00 + (c.toNat - 0x10000) % 0x400)

/-- A string rendered as a JSON string literal: quote, escaped body, quote. -/
def dumpsStr (s : List Char) : List Char :=
  '"' :: (s.flatMap encChar ++ [ '"' ])

mutual
/-- `json.dumps` of a value (default separators). -/
def dumpsVal : Json → List Char
  | .jnull => [ 'n', 'u', 'l', 'l' ]
  | .jbool true => [ 't', 'r', 'u', 'e' ]
  | .jbool false => [ 'f', 'a', 'l', 's', 'e' ]
  | .jint n => (toString n).data
  | .jstr s => dumpsStr s
  | .jarr items => '[' :: (dumpsItems items ++ [ ']' ])
  | .jobj members => '\x7b' :: (dumpsMembers members ++ [ '\x7d' ])
/-- Array items joined by comma + space. -/
def dumpsItems : List Json → List Char
  | [] => []
  | x :: xs => dumpsVal x ++ itemsRest xs
def itemsRest : List Json → List Char
  | [] => []
  | x :: xs => ',' :: ' ' :: (dumpsVal x ++ itemsRest xs)
/-- Object members `"key": value` joined by comma + space. -/
def dumpsMembers : List (List Char × Json) → List Char
  | [] => []
  | (k, v) :: ms => dumpsStr k ++ ':' :: ' ' :: (dumpsVal v ++ membersRest ms)
def membersRest : List (List Char × Json) → List Char
  | [] => []
  | (k, v) :: ms => ',' :: ' ' :: (dumpsStr k ++ ':' :: ' ' :: (dumpsVal v ++ membersRest ms))
end

/-! ### The scanner, `json.loads`

Models the CPython C scanner on the subset above.  Error values carry the
descriptive part of the JSONDecodeError message (the `line ... column ...`
position suffix of the Python message is omitted). -/

/-- JSON whitespace, as skipped by the scanner: space, tab, newline, return. -/
def jsonWs (c : Char) : Bool :=
  c = ' ' || c = '\t' || c = '\n' || c = '\r'

/-- Skip JSON whitespace. -/
def jsonSkip (l : List Char) : List Char := l.dropWhile jsonWs

/-- Value of one hex digit, upper or lower case. -/
def hexDigitVal (c : Char) : Option Nat :=
  if '0' ≤ c ∧ c ≤ '9' then some (c.toNat - '0'.toNat)
  else if 'a' ≤ c ∧ c ≤ 'f' then some (c.toNat - 'a'.toNat + 10)
  else if 'A' ≤ c ∧ c ≤ 'F' then some (c.toNat - 'A'.toNat + 10)
  else none

/-- Value of a 4-hex-digit group. -/
def hexQuad (a b c d : Char) : Option Nat := do
  let x ← hexDigitVal a
  let y ← hexDigitVal b
  let z ← hexDigitVal c
  let w ← hexDigitVal d
  pure (((x * 16 + y) * 16 + z) * 16 + w)

/-- The single-character string escapes of the JSON grammar. -/
def escMap : Char → Option Char
  | '"' => some '"'
  | '\\' => some '\\'
  | '/' => some '/'
  | 'b' => some '\x08'
  | 'f' => some '\x0c'
  | 'n' => some '\n'
  | 'r' => some '\r'
  | 't' => some '\t'
  | _ => none

/-- Error fuel sentinel; never reached with the fuel the callers supply. -/
def msgFuel : List Char := "scanner fuel exhausted".data

def msgUnterminated : List Char := "Unterminated string starting at".data

def msgBadU : List Char := "Invalid \\uXXXX escape".data

def msgLone : List Char := "lone surrogate outside modelled subset".data

def msgBadEsc : List Char := "Invalid \\escape".data

def msgCtl : List Char := "Invalid control character".data

def msgExpVal : List Char := "Expecting value".data

def msgDelim : List Char := "Expecting ',' delimiter".data

def msgColon : List Char := "Expecting ':' delimiter".data

def msgPropName : List Char := "Expecting property name enclosed in double quotes".data

def msgFloat : List Char := "float literal outside modelled subset".data

def msgExtra : List Char := "Extra data".data

mutual
/-- Scan the body of a JSON string literal after the opening quote, in
strict mode: raw control characters are rejected, escapes are decoded, a
\uXXXX high-surrogate escape must be completed by a low one (the CPython
scanner would keep a lone surrogate as a lone-surrogate `str`; such strings
have no `List Char` counterpart and are reported as errors of the modelled
subset).  The fuel decreases at every step and callers supply enough for
any input. -/
def scanStringBody : Nat → List Char → Except (List Char) (List Char × List Char)
  | 0, _ => .error msgFuel
  | _ + 1, [] => .error msgUnterminated
  | fu + 1, c :: r =>
    if c = '"' then .ok ([], r)
    else if c = '\\' then scanEscape fu r
    else if c.toNat < 0x20 then .error msgCtl
    else
      match scanStringBody fu r with
      | .ok (s, r2) => .ok (c :: s, r2)
      | .error e => .error e
/-- After a backslash: a named escape or a unicode escape. -/
def scanEscape : Nat → List Char → Except (List Char) (List Char × List Char)
  | 0, _ => .error msgFuel
  | _ + 1, [] => .error msgUnterminated
  | fu + 1, e :: r =>
    if e = 'u' then scanUnicode fu r
    else
      match escMap e with
      | some ch =>
        match scanStringBody fu r with
        | .ok (s, r2) => .ok (ch :: s, r2)
        | .error err => .error err
      | none => .error msgBadEsc
/-- After a backslash and a `u`: four hex digits, possibly a surrogate. -/
def scanUnicode : Nat → List Char → Except (List Char) (List Char × List Char)
  | 0, _ => .error msgFuel
  | fu + 1, a :: b :: c :: d :: r =>
    match hexQuad a b c d with
    | none => .error msgBadU
    | some n =>
      if n < 0xd800 ∨ 0xe000 ≤ n then
        match scanStringBody fu r with
        | .ok (s, r2) => .ok (Char.ofNat n :: s, r2)
        | .error err => .error err
      else if n < 0xdc00 then scanLowPart n fu r
      else .error msgLone
  | _ + 1, _ => .error msgBadU
/-- After a high-surrogate escape: the matching low-surrogate escape. -/
def scanLowPart (n : Nat) : Nat → List Char → Except (List Char) (List Char × List Char)
  | 0, _ => .error msgFuel
  | fu + 1, e1 :: e2 :: a :: b :: c :: d :: r =>
    if e1 = '\\' ∧ e2 = 'u' then
      match hexQuad a b c d with
      | none => .error msgBadU
      | some m =>
        if 0xdc00 ≤ m ∧ m < 0xe000 then
          match scanStringBody fu r with
          | .ok (s, r2) =>
            .ok (Char.ofNat (0x10000 + (n - 0xd800) * 0x400 + (m - 0xdc00)) :: s, r2)
          | .error err => .error err
        else .error msgLone
    else .error msgLone
  | _ + 1, _ => .error msgLone
end

/-- Digit character test of the scanner. -/
def isDigitCh (c : Char) : Bool := '0' ≤ c && c ≤ '9'

/-- Split off the leading run of digits. -/
def digitSpan : List Char → (List Char × List Char)
  | [] => ([], [])
  | c :: r =>
    if isDigitCh c then
      let (ds, rest) := digitSpan r
      (c :: ds, rest)
    else ([], c :: r)

/-- Numeric value of a digit run. -/
def digitsVal (ds : List Char) : Nat :=
  ds.foldl (fun acc c => acc * 10 + (c.toNat - '0'.toNat)) 0

/-- Whether the character would start the fractional or exponent part of a
float literal, which is outside the modelled subset. -/
def startsFloat : List Char → Bool
  | [] => false
  | c :: _ => c = '.' || c = 'e' || c = 'E'

/-- Scan the integer part of a JSON number after an optional minus sign,
following the grammar `0 | [1-9][0-9]*`: a leading zero is a complete
integer part by itself. -/
def scanIntBody (neg : Bool) (cs : List Char) : Except (List Char) (Json × List Char) :=
  match cs with
  | [] => .error msgExpVal
  | c :: rest =>
    if c = '0' then
      if startsFloat rest then .error msgFloat else .ok (.jint 0, rest)
    else
      match digitSpan (c :: rest) with
      | ([], _) => .error msgExpVal
      | (ds, rest2) =>
        if startsFloat rest2 then .error msgFloat
        else .ok (.jint (if neg then -(digitsVal ds : Int) else (digitsVal ds : Int)), rest2)

mutual
/-- One value, anchored at the head of the input (callers skip whitespace).
Fuel decreases at every recursive step; `json_loads` supplies enough for
any input it passes. -/
def scanValue : Nat → List Char → Except (List Char) (Json × List Char)
  | 0, _ => .error msgFuel
  | _ + 1, [] => .error msgExpVal
  | fu + 1, c :: cs =>
    if c = '"' then
      match scanStringBody (cs.length + 2) cs with
      | .ok (s, r2) => .ok (.jstr s, r2)
      | .error e => .error e
    else if c = '\x7b' then scanObjOpen fu (jsonSkip cs)
    else if c = '[' then scanArrOpen fu (jsonSkip cs)
    else if c = 'n' then
      if cs.take 3 = [ 'u', 'l', 'l' ] then .ok (.jnull, cs.drop 3) else .error msgExpVal
    else if c = 't' then
      if cs.take 3 = [ 'r', 'u', 'e' ] then .ok (.jbool true, cs.drop 3) else .error msgExpVal
    else if c = 'f' then
      if cs.take 4 = [ 'a', 'l', 's', 'e' ] then .ok (.jbool false, cs.drop 4) else .error msgExpVal
    else if c = '-' then scanIntBody true cs
    else if isDigitCh c then scanIntBody false (c :: cs)
    else .error msgExpVal
/-- After `[` and whitespace: a closing bracket, or one-or-more items. -/
def scanArrOpen : Nat → List Char → Except (List Char) (Json × List Char)
  | 0, _ => .error msgFuel
  | fu + 1, cs =>
    match cs with
    | [] =>
      match scanItems fu [] with
      | .ok (items, r) => .ok (.jarr items, r)
      | .error e => .error e
    | c :: r =>
      if c = ']' then .ok (.jarr [], r)
      else
        match scanItems fu (c :: r) with
        | .ok (items, r2) => .ok (.jarr items, r2)
        | .error e => .error e
/-- One-or-more comma-separated items ending with `]`. -/
def scanItems : Nat → List Char → Except (List Char) (List Json × List Char)
  | 0, _ => .error msgFuel
  | fu + 1, cs =>
    match scanValue fu cs with
    | .error e => .error e
    | .ok (v, r) =>
      match jsonSkip r with
      | [] => .error msgDelim
      | c :: r2 =>
        if c = ']' then .ok ([v], r2)
        else if c = ',' then
          match scanItems fu (jsonSkip r2) with
          | .ok (vs, r3) => .ok (v :: vs, r3)
          | .error e => .error e
        else .error msgDelim
/-- After an opening brace and whitespace: a closing brace, or one-or-more
members, each a string key, colon, value. -/
def scanObjOpen : Nat → List Char → Except (List Char) (Json × List Char)
  | 0, _ => .error msgFuel
  | fu + 1, cs =>
    match cs with
    | [] => .error msgPropName
    | c :: r =>
      if c = '\x7d' then .ok (.jobj [], r)
      else if c = '"' then
        match scanMembers fu r with
        | .ok (ms, r2) => .ok (.jobj ms, r2)
        | .error e => .error e
      else .error msgPropName
/-- Members from just after a key opening quote: key body, colon, value,
then a closing brace or a comma and, after it, the next key. -/
def scanMembers : Nat → List Char → Except (List Char) (List (List Char × Json) × List Char)
  | 0, _ => .error msgFuel
  | fu + 1, cs =>
    match scanStringBody (cs.length + 2) cs with
    | .error e => .error e
    | .ok (k, r) =>
      match jsonSkip r with
      | [] => .error msgColon
      | c :: r2 =>
        if c = ':' then
          match scanValue fu (jsonSkip r2) with
          | .error e => .error e
          | .ok (v, r3) =>
            match jsonSkip r3 with
            | [] => .error msgDelim
            | c2 :: r4 =>
              if c2 = '\x7d' then .ok ([(k, v)], r4)
              else if c2 = ',' then
                match jsonSkip r4 with
                | [] => .error msgPropName
                | c3 :: r5 =>
                  if c3 = '"' then
                    match scanMembers fu r5 with
                    | .ok (ms, r6) => .ok ((k, v) :: ms, r6)
                    | .error e => .error e
                  else .error msgPropName
              else .error msgDelim
        else .error msgColon
end

/-- The whole-document decoder `json.loads`: skip whitespace, scan one value,
require only whitespace after it.  The fuel bound suffices for every input:
the value scanner consumes at least one character per two fuel steps. -/
def json_loads (cs : List Char) : Except (List Char) Json :=
  match scanValue (2 * cs.length + 2) (jsonSkip cs) with
  | .error e => .error e
  | .ok (v, r) => if jsonSkip r = [] then .ok v else .error msgExtra

/-! ### The response schema

`ResumeReviewResponse` (src/main.py lines 25-31): six mandatory fields,
one text and five sequences of text.  Validation is the pydantic
construction `ResumeReviewResponse(**review_data)`: it requires a mapping,
ignores extra keys, accepts a field only in its declared shape, and either
yields a fully populated model or raises. -/

structure ResumeReviewResponse where
  review : List Char
  strengths : List (List Char)
  weaknesses : List (List Char)
  suggestions : List (List Char)
  matched_keywords : List (List Char)
  missing_keywords : List (List Char)
deriving DecidableEq, Repr

def key_review : List Char := "review".data
def key_strengths : List Char := "strengths".data
def key_weaknesses : List Char := "weaknesses".data
def key_suggestions : List Char := "suggestions".data
def key_matched : List Char := "matched_keywords".data
def key_missing : List Char := "missing_keywords".data

/-- The six mandatory keys of the schema. -/
def requiredKeys : List (List Char) :=
  [ key_review, key_strengths, key_weaknesses, key_suggestions, key_matched, key_missing ]

/-- Dict lookup on the parsed member list.  A duplicated key holds the value
of its last occurrence, as in a Python dict built by the scanner. -/
def objGet (ms : List (List Char × Json)) (k : List Char) : Option Json :=
  match ms with
  | [] => none
  | (k2, v) :: rest =>
    match objGet rest k with
    | some w => some w
    | none => if k2 = k then some v else none

/-- A `str` field accepts exactly a JSON string (pydantic v2, lax mode:
no coercion from numbers, booleans or null). -/
def pyStr : Json → Option (List Char)
  | .jstr s => some s
  | _ => none

/-- Element-wise text check of a sequence field: every element must be a
JSON string, and the whole sequence is rejected otherwise. -/
def strElems : List Json → Option (List (List Char))
  | [] => some []
  | x :: t =>
    match pyStr x, strElems t with
    | some s, some l => some (s :: l)
    | _, _ => none

/-- A `list[str]` field accepts exactly a JSON array of strings. -/
def pyStrList : Json → Option (List (List Char))
  | .jarr items => strElems items
  | _ => none

def validationMsg : List Char := "validation error for ResumeReviewResponse".data

def mappingMsg : List Char := "argument after ** must be a mapping".data

/-- Field assembly of the pydantic model: all six fields must be present and
well shaped, otherwise the construction raises; no partially populated model
exists. -/
def validateFields (a b c d e f : Option Json) :
    Except (List Char) ResumeReviewResponse :=
  match a.bind pyStr, b.bind pyStrList, c.bind pyStrList,
        d.bind pyStrList, e.bind pyStrList, f.bind pyStrList with
  | some rv, some st, some wk, some sg, some mk, some mi =>
    .ok ⟨rv, st, wk, sg, mk, mi⟩
  | _, _, _, _, _, _ => .error validationMsg

/-- `ResumeReviewResponse(**review_data)`: a non-mapping argument raises a
TypeError before pydantic runs; a mapping is validated field by field. -/
def validateRR : Json → Except (List Char) ResumeReviewResponse
  | .jobj ms =>
    validateFields (objGet ms key_review) (objGet ms key_strengths)
      (objGet ms key_weaknesses) (objGet ms key_suggestions)
      (objGet ms key_matched) (objGet ms key_missing)
  | _ => .error mappingMsg

/-- The JSON object a `ResumeReviewResponse` denotes (also the shape of the
response body the endpoint returns on success). -/
def rrToJson (x : ResumeReviewResponse) : Json :=
  .jobj
    [ (key_review, .jstr x.review),
      (key_strengths, .jarr (x.strengths.map .jstr)),
      (key_weaknesses, .jarr (x.weaknesses.map .jstr)),
      (key_suggestions, .jarr (x.suggestions.map .jstr)),
      (key_matched, .jarr (x.matched_keywords.map .jstr)),
      (key_missing, .jarr (x.missing_keywords.map .jstr)) ]

/-- Serialization of a `ResumeReviewResponse` as the test fixtures build it:
`json.dumps` of the six-key dict. -/
def dumpsRR (x : ResumeReviewResponse) : List Char := dumpsVal (rrToJson x)

/-! ### The upstream reply shape and the request path

`response.candidates[0].content.parts[0].text` with the three truthiness
checks of src/main.py lines 84-86: a nonempty candidate list, a content
container present, a nonempty part list. -/

structure GeminiPart where
  text : List Char
deriving DecidableEq, Repr

structure GeminiContent where
  parts : List GeminiPart
deriving DecidableEq, Repr

structure GeminiCandidate where
  content : Option GeminiContent
deriving DecidableEq, Repr

structure GeminiResponse where
  candidates : List GeminiCandidate
deriving DecidableEq, Repr

/-- The text of the first part of the first candidate, when the three
truthiness checks of `has_valid_content` pass; `none` exactly when
`not has_valid_content`. -/
def firstPartText (resp : GeminiResponse) : Option (List Char) :=
  match resp.candidates with
  | [] => none
  | cand :: _ =>
    match cand.content with
    | none => none
    | some content =>
      match content.parts with
      | [] => none
      | part :: _ => some part.text

/-- The Python exceptions that cross the `try` of `review_resume`. -/
inductive PyExc where
  | httpExc (status_code : Nat) (detail : List Char)
  | jsonDecodeError (msg : List Char)
  | validationError (msg : List Char)
deriving DecidableEq, Repr

/-- Python `str(e)` of each exception: starlette renders an HTTPException as
status code + colon + space + detail; the others carry their message. -/
def strPyExc : PyExc → List Char
  | .httpExc status_code detail => (Nat.repr status_code).data ++ (": ".data) ++ detail
  | .jsonDecodeError m => m
  | .validationError m => m

def emptyOutputMsg : List Char := "Gemini API did not return expected content.".data

def rawLogPre : List Char := "Raw Gemini response: ".data

/-- `parse_gemini_response` (src/main.py lines 45-49): candidate selection
followed by `json.loads`; a decode failure is the JSONDecodeError the json
module raises. -/
def parse_gemini_response (response_text : List Char) : Except PyExc Json :=
  match json_loads (geminiCandidate response_text) with
  | .ok v => .ok v
  | .error m => .error (.jsonDecodeError m)

/-- `generate_gemini_review` (src/main.py lines 51-91) from the model reply
on: the empty-output check raising the fixed HTTPException, the raw-text
print, and `parse_gemini_response`.  Returns the outcome together with the
lines printed. -/
def generate_gemini_review (resp : GeminiResponse) :
    Except PyExc Json × List (List Char) :=
  match firstPartText resp with
  | none => (.error (.httpExc 500 emptyOutputMsg), [])
  | some raw =>
    (parse_gemini_response raw, [ rawLogPre ++ raw ])

/-- The error body of a FastAPI HTTPException response. -/
structure ErrorResponse where
  status_code : Nat
  detail : List Char
deriving DecidableEq, Repr

def jsonFailPre : List Char := "Failed to parse Gemini API response as JSON: ".data

def genericFailPre : List Char := "Failed to review resume: ".data

def decodeLogPre : List Char := "Error decoding JSON from Gemini API response: ".data

def genericLogPre : List Char := "Error calling Gemini API: ".data

/-- `review_resume` (src/main.py lines 107-129) after the upstream call: the
happy path builds the response model; a JSONDecodeError is re-raised with
the parse-failure detail; every other exception - including the
empty-output HTTPException and the pydantic/TypeError of the model
construction - is re-raised with the generic detail wrapping `str(e)`. -/
def review_resume (resp : GeminiResponse) :
    Except ErrorResponse ResumeReviewResponse × List (List Char) :=
  match generate_gemini_review resp with
  | (.ok review_data, log) =>
    match validateRR review_data with
    | .ok r => (.ok r, log)
    | .error m =>
      (.error ⟨500, genericFailPre ++ strPyExc (.validationError m)⟩,
       log ++ [ genericLogPre ++ strPyExc (.validationError m) ])
  | (.error (.jsonDecodeError m), log) =>
    (.error ⟨500, jsonFailPre ++ m⟩, log ++ [ decodeLogPre ++ m ])
  | (.error e, log) =>
    (.error ⟨500, genericFailPre ++ strPyExc e⟩, log ++ [ genericLogPre ++ strPyExc e ])

/-- A reply whose first candidate carries one part with the given text. -/
def replyWithText (t : List Char) : GeminiResponse :=
  ⟨[ ⟨some ⟨[ ⟨t⟩ ]⟩⟩ ]⟩

/-- The Response Extractor as one map: raw text to validated result. -/
def extractReview (t : List Char) : Except (List Char) ResumeReviewResponse :=
  match json_loads (geminiCandidate t) with
  | .ok j => validateRR j
  | .error m => .error m

/-! ### The prompt builder

The instruction text of `generate_gemini_review` (src/main.py lines 53-79):
an f-string with both inputs spliced verbatim between fixed segments. -/

def promptHead : List Char :=
  ("\n    You are an expert resume reviewer. Your task is to analyze a resume against a given job description.").data ++
  ("\n    Provide a comprehensive review, highlighting strengths, weaknesses, and actionable suggestions.").data ++
  ("\n    Also, identify keywords from the job description that are present in the resume and those that are missing.\n").data ++
  ("\n    Job Description:\n    ---\n    ").data

def promptMid : List Char :=
  ("\n    ---\n").data ++
  ("\n    Resume Text:\n    ---\n    ").data

def promptTail : List Char :=
  ("\n    ---\n").data ++
  ("\n    Please provide the review strictly in a structured JSON format.").data ++
  ("\n    DO NOT include any introductory or concluding text, or any markdown code block delimiters (e.g., \x60\x60\x60json).").data ++
  ("\n    The output should be ONLY the JSON object.\n").data ++
  ("\n    Use the following keys for the JSON object:").data ++
  ("\n    - \"review\": A general summary of the resume\x27s alignment with the job description.").data ++
  ("\n    - \"strengths\": A list of key strengths of the resume in relation to the job description.").data ++
  ("\n    - \"weaknesses\": A list of key weaknesses or areas for improvement.").data ++
  ("\n    - \"suggestions\": A list of actionable suggestions to improve the resume.").data ++
  ("\n    - \"matched_keywords\": A list of important keywords from the job description found in the resume.").data ++
  ("\n    - \"missing_keywords\": A list of important keywords from the job description that are missing from the resume.\n    ").data

/-- The prompt as a function of the two request fields. -/
def build_prompt (job_description resume_text : List Char) : List Char :=
  promptHead ++ job_description ++ promptMid ++ resume_text ++ promptTail

/-- One request round: build the prompt, obtain the deterministic upstream
reply for it, run the extraction path, and render the outcome (the response
body JSON on success). -/
def review_pipeline (job_description resume_text : List Char)
    (upstream : List Char → GeminiResponse) : Except ErrorResponse (List Char) :=
  match (review_resume (upstream (build_prompt job_description resume_text))).1 with
  | .ok r => .ok (dumpsRR r)
  | .error e => .error e

/-! ## Helper lemmas -/

/-- Two appends with concrete heads differing at one position are different. -/
theorem append_clash {a b : List Char} (i : Nat) (hia : i < a.length)
    (hib : i < b.length) (hne : a[i]? ≠ b[i]?) :
    ∀ x y : List Char, a ++ x ≠ b ++ y := by
  intro x y h
  apply hne
  rw [← @List.getElem?_append_left Char a x i hia, h, List.getElem?_append_left hib]

/-- An infix of the right part is an infix of an append. -/
theorem infixR {l a b : List Char} (h : l <:+: b) : l <:+: a ++ b :=
  h.trans (List.suffix_append a b).isInfix

/-- An infix of the left part is an infix of an append. -/
theorem infixL {l a b : List Char} (h : l <:+: a) : l <:+: a ++ b :=
  h.trans (List.prefix_append a b).isInfix

/-- A suffix of the right part is a suffix of an append. -/
theorem suffixR {l a b : List Char} (h : l <:+ b) : l <:+ a ++ b :=
  h.trans (List.suffix_append a b)

/-- A prefix of the left part is a prefix of an append. -/
theorem prefixL {l a b : List Char} (h : l <+: a) : l <+: a ++ b :=
  h.trans (List.prefix_append a b)

/-- The empty-output HTTPException, as re-rendered by the generic handler. -/
def emptyOutputDetail : List Char :=
  genericFailPre ++ strPyExc (.httpExc 500 emptyOutputMsg)

/-- The three failing truthiness checks make `firstPartText` empty. -/
theorem firstPartText_eq_none (resp : GeminiResponse)
    (h : resp.candidates = [] ∨
      ∃ cand rest, resp.candidates = cand :: rest ∧
        (cand.content = none ∨ ∃ ct, cand.content = some ct ∧ ct.parts = [])) :
    firstPartText resp = none := by
  rcases h with h | ⟨cand, rest, hc, h | ⟨ct, hct, hp⟩⟩
  · simp [firstPartText, h]
  · simp [firstPartText, hc, h]
  · simp [firstPartText, hc, hct, hp]

/-! ## C7: the prompt builder -/

/-- C7: the Prompt Builder is a pure total function: for every pair of
strings (including empty ones) it renders one instruction text that embeds
both inputs verbatim between fixed segments, keeps each input inside a
delimited section (a `---` fence after a section heading on each side), and
names each of the six required output keys, instructing the generator to
emit only the JSON object. -/
theorem C7_prompt_builder (job_description resume_text : List Char) :
    build_prompt job_description resume_text
      = promptHead ++ job_description ++ promptMid ++ resume_text ++ promptTail ∧
    (("Job Description:\n    ---\n    ").data <:+ promptHead) ∧
    (("\n    ---\n").data <+: promptMid) ∧
    (("Resume Text:\n    ---\n    ").data <:+ promptMid) ∧
    (("\n    ---\n").data <+: promptTail) ∧
    (∀ k ∈ requiredKeys, ('"' :: (k ++ [ '"' ])) <:+: promptTail) ∧
    (("The output should be ONLY the JSON object.").data <:+: promptTail) := by
  refine ⟨rfl, ?_, ?_, ?_, ?_, ?_, ?_⟩
  · unfold promptHead
    repeat apply suffixR
    decide
  · unfold promptMid
    apply prefixL
    decide
  · unfold promptMid
    apply suffixR
    decide
  · unfold promptTail
    apply prefixL
    decide
  · intro k hk
    unfold promptTail
    fin_cases hk
    · apply infixL; apply infixL; apply infixL; apply infixL; apply infixL
      apply infixR; decide
    · apply infixL; apply infixL; apply infixL; apply infixL
      apply infixR; decide
    · apply infixL; apply infixL; apply infixL
      apply infixR; decide
    · apply infixL; apply infixL
      apply infixR; decide
    · apply infixL
      apply infixR; decide
    · apply infixR; decide
  · unfold promptTail
    apply infixL; apply infixL; apply infixL; apply infixL
    apply infixL; apply infixL; apply infixL
    apply infixR; decide

/-- C7 witness: at the empty pair, the decomposition holds and the six keys
are all announced in the tail segment. -/
theorem C7_prompt_builder_witness :
    build_prompt [] [] = promptHead ++ [] ++ promptMid ++ [] ++ promptTail ∧
    ('"' :: (key_review ++ [ '"' ])) <:+: promptTail :=
  ⟨(C7_prompt_builder [] []).1,
   (C7_prompt_builder [] []).2.2.2.2.2.1 key_review (by decide)⟩

/-! ## C6: determinism of the request path -/

/-- C6: the request pipeline is deterministic: two runs of the Prompt
Builder plus Response Extractor on the same request pair against the same
upstream reply function produce byte-identical response JSON. -/
theorem C6_pipeline_deterministic
    (jd1 rt1 : List Char) (up1 : List Char → GeminiResponse)
    (jd2 rt2 : List Char) (up2 : List Char → GeminiResponse)
    (hjd : jd1 = jd2) (hrt : rt1 = rt2) (hup : up1 = up2) :
    review_pipeline jd1 rt1 up1 = review_pipeline jd2 rt2 up2 := by
  rw [hjd, hrt, hup]

/-- C6 witness: a concrete repeated run against a fixed mocked reply. -/
theorem C6_pipeline_deterministic_witness :
    review_pipeline (("jd").data) (("rt").data)
        (fun _ => replyWithText (("\x7b").data))
      = review_pipeline (("jd").data) (("rt").data)
        (fun _ => replyWithText (("\x7b").data)) :=
  C6_pipeline_deterministic _ _ _ _ _ _ rfl rfl rfl

/-! ## C3: empty-output classification -/

/-- C3: when the model call reports no candidate, no content container or no
content parts, the pipeline fails on the EmptyOutput path, surfaced as HTTP
500 with one fixed detail that carries the did-not-return-expected-content
message, and that detail differs from every JSON-parse-failure detail, so
callers can tell the two apart.  (In the code the fixed HTTPException is
re-wrapped by the generic handler, so the surfaced detail is the generic
prefix + the rendered exception; it is still one fixed string and is
disjoint from the parse-failure details.) -/
theorem C3_empty_output_classification (resp : GeminiResponse)
    (h : resp.candidates = [] ∨
      ∃ cand rest, resp.candidates = cand :: rest ∧
        (cand.content = none ∨ ∃ ct, cand.content = some ct ∧ ct.parts = [])) :
    (review_resume resp).1 = .error ⟨500, emptyOutputDetail⟩ ∧
    (("did not return expected content").data <:+: emptyOutputDetail) ∧
    (∀ m, emptyOutputDetail ≠ jsonFailPre ++ m) := by
  refine ⟨?_, by decide, ?_⟩
  · have hn := firstPartText_eq_none resp h
    simp [review_resume, generate_gemini_review, hn, emptyOutputDetail]
  · intro m
    have : emptyOutputDetail = emptyOutputDetail ++ [] := by simp
    rw [this]
    exact append_clash 10 (by decide) (by decide) (by decide) [] m

/-- C3 witness: the zero-candidate reply of the test suite. -/
theorem C3_empty_output_classification_witness :
    (review_resume ⟨[]⟩).1 = .error ⟨500, emptyOutputDetail⟩ :=
  (C3_empty_output_classification ⟨[]⟩ (Or.inl rfl)).1

/-! ## Scanner helper lemmas -/

theorem lastHit_some {p : Nat → Bool} : ∀ {b k : Nat}, lastHit p b = some k →
    p k = true ∧ k < b ∧ ∀ j, k < j → j < b → p j = false := by
  intro b
  induction b with
  | zero => intro k h; simp [lastHit] at h
  | succ b ih =>
    intro k h
    rw [lastHit] at h
    by_cases hp : p b = true
    · rw [if_pos hp] at h
      cases h
      exact ⟨hp, Nat.lt_succ_self b, fun j h1 h2 => absurd h2 (by omega)⟩
    · rw [if_neg hp] at h
      obtain ⟨h1, h2, h3⟩ := ih h
      refine ⟨h1, by omega, fun j hj1 hj2 => ?_⟩
      rcases Nat.lt_or_ge j b with hlt | hge
      · exact h3 j hj1 hlt
      · have : j = b := by omega
        subst this
        exact Bool.not_eq_true _ |>.mp hp
  
theorem lastHit_none {p : Nat → Bool} : ∀ {b : Nat}, lastHit p b = none →
    ∀ j, j < b → p j = false := by
  intro b
  induction b with
  | zero => intro _ j hj; omega
  | succ b ih =>
    intro h j hj
    rw [lastHit] at h
    by_cases hp : p b = true
    · rw [if_pos hp] at h; cases h
    · rw [if_neg hp] at h
      rcases Nat.lt_or_ge j b with hlt | hge
      · exact ih h j hlt
      · have : j = b := by omega
        subst this
        exact Bool.not_eq_true _ |>.mp hp

theorem lastHit_complete {p : Nat → Bool} : ∀ {b k : Nat}, k < b → p k = true →
    ∃ m, lastHit p b = some m := by
  intro b
  induction b with
  | zero => intro k h; omega
  | succ b ih =>
    intro k hk hp
    rw [lastHit]
    by_cases hb : p b = true
    · exact ⟨b, by rw [if_pos hb]⟩
    · rw [if_neg hb]
      rcases Nat.lt_or_ge k b with hlt | hge
      · exact ih hlt hp
      · have : k = b := by omega
        subst this
        exact absurd hp (by simp [hb])

/-- What a successful anchored fence attempt yields: the group is a take of
the whitespace-stripped remainder after the opening token, it opens with a
brace, closes with a brace, and the close condition holds at its length
maximally. -/
theorem fenceAt_some_spec {s g : List Char} (h : fenceAt s = some g) :
    fenceOpen.isPrefixOf s = true ∧
    ∃ n, g = ((s.drop 7).dropWhile pythonWs).take n ∧
      n ≤ ((s.drop 7).dropWhile pythonWs).length ∧
      ((s.drop 7).dropWhile pythonWs).head? = some '\x7b' ∧
      groupCloses ((s.drop 7).dropWhile pythonWs) n = true ∧
      (∀ j, n < j → j ≤ ((s.drop 7).dropWhile pythonWs).length →
        groupCloses ((s.drop 7).dropWhile pythonWs) j = false) := by
  simp only [fenceAt] at h
  split at h
  case isTrue hpre =>
    split at h
    case h_2 => cases h
    case h_1 c hr =>
      split at h
      case isFalse => cases h
      case isTrue hc =>
        split at h
        case h_2 => cases h
        case h_1 n hlh =>
          obtain ⟨hp, hlt, hmax⟩ := lastHit_some hlh
          cases h
          subst hc
          exact ⟨hpre, n, rfl, by omega, hr, hp,
            fun j h1 h2 => hmax j h1 (by omega)⟩
  case isFalse => cases h

/-- The head of a take of a list with a known head. -/
theorem head?_take {l : List Char} {c : Char} {n : Nat}
    (hl : l.head? = some c) (hn : 1 ≤ n) : (l.take n).head? = some c := by
  cases l with
  | nil => simp at hl
  | cons a t =>
    cases n with
    | zero => omega
    | succ n => simpa using hl

/-- A matched group starts with an opening brace and ends with a closing
brace, and sits inside the text it was matched in. -/
theorem fenceAt_some_shape {s g : List Char} (h : fenceAt s = some g) :
    g.head? = some '\x7b' ∧ g.getLast? = some '\x7d' ∧ g <:+: s := by
  obtain ⟨hpre, n, hg, hn, hhead, hclose, hmax⟩ := fenceAt_some_spec h
  have hlast : (((s.drop 7).dropWhile pythonWs).take n).getLast? = some '\x7d' := by
    have := (Bool.and_eq_true _ _).mp hclose |>.1
    exact of_decide_eq_true this
  have hn1 : 1 ≤ n := by
    by_contra hn0
    have : n = 0 := by omega
    subst this
    simp at hlast
  subst hg
  refine ⟨head?_take hhead hn1, hlast, ?_⟩
  exact ((List.take_prefix _ _).isInfix).trans
    (((List.dropWhile_suffix _).isInfix).trans ((List.drop_suffix 7 s).isInfix))

/-- A backtick occurs in any text where the anchored attempt succeeds. -/
theorem fenceAt_some_mem_backtick {s g : List Char} (h : fenceAt s = some g) :
    '\x60' ∈ s := by
  obtain ⟨hpre, _⟩ := fenceAt_some_spec h
  obtain ⟨u, hu⟩ := List.isPrefixOf_iff_prefix.mp hpre
  rw [← hu]
  exact List.mem_append_left u (by decide)

/-- An opening brace occurs in any text where the anchored attempt succeeds. -/
theorem fenceAt_some_mem_brace {s g : List Char} (h : fenceAt s = some g) :
    '\x7b' ∈ s := by
  obtain ⟨_, n, _, _, hhead, _⟩ := fenceAt_some_spec h
  have hmem : '\x7b' ∈ (s.drop 7).dropWhile pythonWs := by
    cases hl : (s.drop 7).dropWhile pythonWs with
    | nil => rw [hl] at hhead; simp at hhead
    | cons a t =>
      rw [hl] at hhead
      simp at hhead
      simp [hhead]
  exact (List.drop_suffix 7 s).subset ((List.dropWhile_suffix pythonWs).subset hmem)

/-- The search succeeds exactly at the first offset whose anchored attempt
succeeds. -/
theorem findFence_some_iff : ∀ (t : List Char) (g : List Char),
    findFence t = some g ↔
      ∃ i, fenceAt (t.drop i) = some g ∧ ∀ j, j < i → fenceAt (t.drop j) = none := by
  intro t
  induction t with
  | nil =>
    intro g
    constructor
    · intro h; cases h
    · rintro ⟨i, hi, _⟩
      rw [List.drop_nil] at hi
      cases hi
  | cons c t ih =>
    intro g
    rw [findFence]
    cases hAt : fenceAt (c :: t) with
    | some g0 =>
      simp only []
      constructor
      · intro h
        cases h
        exact ⟨0, hAt, fun j hj => absurd hj (by omega)⟩
      · rintro ⟨i, hi, hmin⟩
        cases i with
        | zero => rw [List.drop_zero] at hi; rw [hAt] at hi; exact hi
        | succ i =>
          have h0 := hmin 0 (by omega)
          rw [List.drop_zero] at h0
          rw [hAt] at h0
          cases h0
    | none =>
      simp only []
      rw [ih g]
      constructor
      · rintro ⟨i, hi, hmin⟩
        refine ⟨i + 1, by simpa using hi, fun j hj => ?_⟩
        cases j with
        | zero => simpa using hAt
        | succ j => simpa using hmin j (by omega)
      · rintro ⟨i, hi, hmin⟩
        cases i with
        | zero => rw [List.drop_zero] at hi; rw [hAt] at hi; cases hi
        | succ i =>
          exact ⟨i, by simpa using hi, fun j hj => by simpa using hmin (j + 1) (by omega)⟩

/-- If no offset matches, the search fails. -/
theorem findFence_none_of_all_none {t : List Char}
    (h : ∀ i, fenceAt (t.drop i) = none) : findFence t = none := by
  cases hf : findFence t with
  | none => rfl
  | some g =>
    obtain ⟨i, hi, _⟩ := (findFence_some_iff t g).mp hf
    rw [h i] at hi
    cases hi

/-- Without any backtick there is no fenced block. -/
theorem findFence_none_no_backtick {t : List Char} (h : '\x60' ∉ t) :
    findFence t = none := by
  apply findFence_none_of_all_none
  intro i
  cases hAt : fenceAt (t.drop i) with
  | none => rfl
  | some g =>
    exact absurd ((List.drop_suffix i t).subset (fenceAt_some_mem_backtick hAt)) h

/-- Without any opening brace there is no fenced block. -/
theorem findFence_none_no_brace {t : List Char} (h : '\x7b' ∉ t) :
    findFence t = none := by
  apply findFence_none_of_all_none
  intro i
  cases hAt : fenceAt (t.drop i) with
  | none => rfl
  | some g =>
    exact absurd ((List.drop_suffix i t).subset (fenceAt_some_mem_brace hAt)) h

/-- Stripping a fully-whitespace text leaves nothing. -/
theorem stripPy_nil_of_allWs {t : List Char} (h : ∀ c ∈ t, pythonWs c = true) :
    stripPy t = [] := by
  have h1 : t.dropWhile pythonWs = [] := List.dropWhile_eq_nil_iff.mpr h
  simp [stripPy, h1]

/-- The strip of a text sits inside it. -/
theorem stripPy_infix (t : List Char) : stripPy t <:+: t := by
  have h1 : (t.dropWhile pythonWs).reverse.dropWhile pythonWs <:+
      (t.dropWhile pythonWs).reverse := List.dropWhile_suffix pythonWs
  have h2 : ((t.dropWhile pythonWs).reverse.dropWhile pythonWs).reverse <+:
      t.dropWhile pythonWs := by
    have := List.reverse_prefix.mpr h1
    simpa using this
  exact (h2.isInfix).trans ((List.dropWhile_suffix pythonWs).isInfix)

/-- The selected candidate always sits inside the raw text. -/
theorem geminiCandidate_infix (t : List Char) : geminiCandidate t <:+: t := by
  unfold geminiCandidate
  cases hf : findFence t with
  | none => exact stripPy_infix t
  | some g =>
    obtain ⟨i, hi, _⟩ := (findFence_some_iff t g).mp hf
    exact ((fenceAt_some_shape hi).2.2).trans ((List.drop_suffix i t).isInfix)

/-! ## C10: valid JSON that is not an object -/

/-- Whether a parsed value is a JSON object (a Python dict). -/
def isObjJ : Json → Bool
  | .jobj _ => true
  | _ => false

/-- A non-object value fails at model construction, not at parsing. -/
theorem validateRR_nonobj (v : Json) (h : isObjJ v = false) :
    validateRR v = .error mappingMsg := by
  cases v <;> simp_all [isObjJ, validateRR]

/-- C10: a candidate that parses as valid JSON but is not an object is not a
MalformedJson failure: the parse step succeeds and only the schema
application fails, landing in the generic failed-to-review-resume bucket,
whose detail differs from every JSON-parse-failure detail. -/
theorem C10_nonobject_generic_bucket (t : List Char) (v : Json)
    (h1 : json_loads (geminiCandidate t) = .ok v) (h2 : isObjJ v = false) :
    (review_resume (replyWithText t)).1 = .error ⟨500, genericFailPre ++ mappingMsg⟩ ∧
    (∀ m, genericFailPre ++ mappingMsg ≠ jsonFailPre ++ m) ∧
    (("Failed to review resume").data <+: genericFailPre ++ mappingMsg) := by
  refine ⟨?_, ?_, by decide⟩
  · simp [review_resume, generate_gemini_review, firstPartText, replyWithText,
      parse_gemini_response, h1, validateRR_nonobj v h2, strPyExc]
  · intro m
    exact append_clash 10 (by decide) (by decide) (by decide) mappingMsg m

/-- C10 witness: the candidate is a JSON array of one string. -/
theorem C10_nonobject_generic_bucket_witness :
    (review_resume (replyWithText (("[\"x\"]").data))).1
      = .error ⟨500, genericFailPre ++ mappingMsg⟩ :=
  (C10_nonobject_generic_bucket (("[\"x\"]").data) (.jarr [ .jstr (("x").data) ])
    rfl rfl).1

/-! ## C9: an empty or whitespace-only first part -/

/-- C9: a reply whose first part text is empty or whitespace-only passes the
empty-output checks (the part list is nonempty) and proceeds to JSON
parsing of the empty candidate, failing as a JSON-parse failure with the
parse detail, not as EmptyOutput. -/
theorem C9_whitespace_part_parse_failure (t : List Char)
    (h : ∀ c ∈ t, pythonWs c = true) :
    (review_resume (replyWithText t)).1
      = .error ⟨500, jsonFailPre ++ ("Expecting value").data⟩ ∧
    jsonFailPre ++ ("Expecting value").data ≠ emptyOutputDetail := by
  constructor
  · have hf : findFence t = none := by
      apply findFence_none_no_backtick
      intro hmem
      have := h _ hmem
      simp [pythonWs] at this
    have hcand : geminiCandidate t = [] := by
      simp [geminiCandidate, hf, stripPy_nil_of_allWs h]
    have hload : json_loads (geminiCandidate t)
        = .error (("Expecting value").data) := by
      rw [hcand]
      rfl
    simp [review_resume, generate_gemini_review, firstPartText, replyWithText,
      parse_gemini_response, hload]
  · decide

/-- C9 witness: a three-character whitespace part. -/
theorem C9_whitespace_part_parse_failure_witness :
    (review_resume (replyWithText ((" \n ").data))).1
      = .error ⟨500, jsonFailPre ++ ("Expecting value").data⟩ :=
  (C9_whitespace_part_parse_failure ((" \n ").data) (by decide)).1

/-! ## C4: malformed JSON classification -/

/-- C4: for every raw reply text whose selected candidate is not valid JSON,
the pipeline fails with the parse classification: HTTP 500, the detail is
the parse-failure prefix plus the scanner error, the raw text (which
carries the candidate inside it) is logged, and no result is substituted. -/
theorem C4_malformed_json (t m : List Char)
    (h : json_loads (geminiCandidate t) = .error m) :
    (review_resume (replyWithText t)).1 = .error ⟨500, jsonFailPre ++ m⟩ ∧
    m <:+: jsonFailPre ++ m ∧
    (rawLogPre ++ t) ∈ (review_resume (replyWithText t)).2 ∧
    geminiCandidate t <:+: t ∧
    (∀ r, (review_resume (replyWithText t)).1 ≠ .ok r) := by
  have hrr : review_resume (replyWithText t)
      = (.error ⟨500, jsonFailPre ++ m⟩,
         [ rawLogPre ++ t ] ++ [ decodeLogPre ++ m ]) := by
    simp [review_resume, generate_gemini_review, firstPartText, replyWithText,
      parse_gemini_response, h]
  refine ⟨by rw [hrr], (List.suffix_append _ _).isInfix, by rw [hrr]; simp,
    geminiCandidate_infix t, ?_⟩
  intro r
  rw [hrr]
  simp

/-- C4 witness: the malformed reply of the specification examples. -/
theorem C4_malformed_json_witness :
    (review_resume (replyWithText (("\x7bnot valid json").data))).1
      = .error ⟨500, jsonFailPre ++
          ("Expecting property name enclosed in double quotes").data⟩ :=
  (C4_malformed_json (("\x7bnot valid json").data)
    (("Expecting property name enclosed in double quotes").data) rfl).1

/-! ## C5: all-or-nothing schema validation -/

theorem optNone_of_isSome_false {α : Type} {o : Option α}
    (h : o.isSome = false) : o = none := by
  cases o with
  | none => rfl
  | some v => simp at h

theorem validateFields_ok_spec {a b c d e f : Option Json}
    {r : ResumeReviewResponse} (h : validateFields a b c d e f = .ok r) :
    a.bind pyStr = some r.review ∧ b.bind pyStrList = some r.strengths ∧
    c.bind pyStrList = some r.weaknesses ∧ d.bind pyStrList = some r.suggestions ∧
    e.bind pyStrList = some r.matched_keywords ∧
    f.bind pyStrList = some r.missing_keywords := by
  unfold validateFields at h
  split at h
  case h_1 rv st wk sg mk mi h1 h2 h3 h4 h5 h6 =>
    cases h
    exact ⟨h1, h2, h3, h4, h5, h6⟩
  case h_2 => cases h

theorem validateFields_error_any {a b c d e f : Option Json}
    (h : a.bind pyStr = none ∨ b.bind pyStrList = none ∨ c.bind pyStrList = none ∨
      d.bind pyStrList = none ∨ e.bind pyStrList = none ∨ f.bind pyStrList = none) :
    validateFields a b c d e f = .error validationMsg := by
  unfold validateFields
  split
  case h_1 rv st wk sg mk mi h1 h2 h3 h4 h5 h6 =>
    rcases h with h | h | h | h | h | h <;> simp_all
  case h_2 => rfl

theorem strElems_map (l : List (List Char)) :
    strElems (l.map Json.jstr) = some l := by
  induction l with
  | nil => rfl
  | cons x t ih => simp [strElems, pyStr, ih]

theorem strElems_inv : ∀ {items : List Json} {l : List (List Char)},
    strElems items = some l → items = l.map Json.jstr := by
  intro items
  induction items with
  | nil => intro l h; simp [strElems] at h; subst h; rfl
  | cons x t ih =>
    intro l h
    rw [strElems] at h
    cases hx : pyStr x with
    | none => rw [hx] at h; simp at h
    | some y =>
      rw [hx] at h
      cases ht : strElems t with
      | none => rw [ht] at h; simp at h
      | some ys =>
        rw [ht] at h
        simp at h
        cases x with
        | jstr s =>
          have hy : s = y := by simpa [pyStr] using hx
          rw [← h, List.map_cons, ← hy, ih ht]
        | jnull => simp [pyStr] at hx
        | jbool b => simp [pyStr] at hx
        | jint n => simp [pyStr] at hx
        | jarr xs => simp [pyStr] at hx
        | jobj ms => simp [pyStr] at hx

theorem bind_pyStr_some {a : Option Json} {s : List Char}
    (h : a.bind pyStr = some s) : a = some (.jstr s) := by
  cases a with
  | none => simp at h
  | some v => cases v <;> simp_all [pyStr]

theorem bind_pyStrList_some {a : Option Json} {l : List (List Char)}
    (h : a.bind pyStrList = some l) : a = some (.jarr (l.map Json.jstr)) := by
  cases a with
  | none => simp at h
  | some v =>
    cases v with
    | jarr items =>
      have : strElems items = some l := by simpa [pyStrList] using h
      rw [strElems_inv this]
    | jnull => simp [pyStrList] at h
    | jbool b => simp [pyStrList] at h
    | jint n => simp [pyStrList] at h
    | jstr s => simp [pyStrList] at h
    | jobj ms => simp [pyStrList] at h

/-- Whether a value has the shape the schema declares for a key: text for
the review key, a sequence of text for the five list keys. -/
def fieldShapeOk (k : List Char) (v : Json) : Bool :=
  if k = key_review then (pyStr v).isSome else (pyStrList v).isSome

/-- C5: schema validation is all-or-nothing.  Keys beyond the six are
ignored (validation depends only on the six lookups); a missing required
key fails the whole extraction; a required key of the wrong shape fails the
whole extraction; and a successful validation returns exactly the six
looked-up values, never a partially populated result. -/
theorem C5_schema_all_or_nothing (ms ms2 : List (List Char × Json)) :
    ((∀ k ∈ requiredKeys, objGet ms k = objGet ms2 k) →
      validateRR (.jobj ms) = validateRR (.jobj ms2)) ∧
    ((∃ k ∈ requiredKeys, objGet ms k = none) →
      validateRR (.jobj ms) = .error validationMsg) ∧
    ((∃ k ∈ requiredKeys, ∃ v, objGet ms k = some v ∧ fieldShapeOk k v = false) →
      validateRR (.jobj ms) = .error validationMsg) ∧
    (∀ r, validateRR (.jobj ms) = .ok r →
      objGet ms key_review = some (.jstr r.review) ∧
      objGet ms key_strengths = some (.jarr (r.strengths.map .jstr)) ∧
      objGet ms key_weaknesses = some (.jarr (r.weaknesses.map .jstr)) ∧
      objGet ms key_suggestions = some (.jarr (r.suggestions.map .jstr)) ∧
      objGet ms key_matched = some (.jarr (r.matched_keywords.map .jstr)) ∧
      objGet ms key_missing = some (.jarr (r.missing_keywords.map .jstr))) := by
  refine ⟨?_, ?_, ?_, ?_⟩
  · intro h
    show validateFields _ _ _ _ _ _ = validateFields _ _ _ _ _ _
    rw [h key_review (by simp [requiredKeys]),
      h key_strengths (by simp [requiredKeys]),
      h key_weaknesses (by simp [requiredKeys]),
      h key_suggestions (by simp [requiredKeys]),
      h key_matched (by simp [requiredKeys]),
      h key_missing (by simp [requiredKeys])]
  · rintro ⟨k, hk, hnone⟩
    show validateFields _ _ _ _ _ _ = .error validationMsg
    simp only [requiredKeys, List.mem_cons, List.not_mem_nil, or_false] at hk
    rcases hk with rfl | rfl | rfl | rfl | rfl | rfl
    · exact validateFields_error_any (Or.inl (by simp [hnone]))
    · exact validateFields_error_any (Or.inr (Or.inl (by simp [hnone])))
    · exact validateFields_error_any (Or.inr (Or.inr (Or.inl (by simp [hnone]))))
    · exact validateFields_error_any (Or.inr (Or.inr (Or.inr (Or.inl (by simp [hnone])))))
    · exact validateFields_error_any
        (Or.inr (Or.inr (Or.inr (Or.inr (Or.inl (by simp [hnone]))))))
    · exact validateFields_error_any
        (Or.inr (Or.inr (Or.inr (Or.inr (Or.inr (by simp [hnone]))))))
  · rintro ⟨k, hk, v, hv, hbad⟩
    show validateFields _ _ _ _ _ _ = .error validationMsg
    simp only [requiredKeys, List.mem_cons, List.not_mem_nil, or_false] at hk
    rcases hk with rfl | rfl | rfl | rfl | rfl | rfl
    · rw [fieldShapeOk, if_pos rfl] at hbad
      have hbad2 := optNone_of_isSome_false hbad
      exact validateFields_error_any (Or.inl (by simp [hv, hbad2]))
    · rw [fieldShapeOk, if_neg (by decide)] at hbad
      have hbad2 := optNone_of_isSome_false hbad
      exact validateFields_error_any (Or.inr (Or.inl (by simp [hv, hbad2])))
    · rw [fieldShapeOk, if_neg (by decide)] at hbad
      have hbad2 := optNone_of_isSome_false hbad
      exact validateFields_error_any (Or.inr (Or.inr (Or.inl (by simp [hv, hbad2]))))
    · rw [fieldShapeOk, if_neg (by decide)] at hbad
      have hbad2 := optNone_of_isSome_false hbad
      exact validateFields_error_any
        (Or.inr (Or.inr (Or.inr (Or.inl (by simp [hv, hbad2])))))
    · rw [fieldShapeOk, if_neg (by decide)] at hbad
      have hbad2 := optNone_of_isSome_false hbad
      exact validateFields_error_any
        (Or.inr (Or.inr (Or.inr (Or.inr (Or.inl (by simp [hv, hbad2]))))))
    · rw [fieldShapeOk, if_neg (by decide)] at hbad
      have hbad2 := optNone_of_isSome_false hbad
      exact validateFields_error_any
        (Or.inr (Or.inr (Or.inr (Or.inr (Or.inr (by simp [hv, hbad2]))))))
  · intro r h
    obtain ⟨h1, h2, h3, h4, h5, h6⟩ := validateFields_ok_spec h
    exact ⟨bind_pyStr_some h1, bind_pyStrList_some h2, bind_pyStrList_some h3,
      bind_pyStrList_some h4, bind_pyStrList_some h5, bind_pyStrList_some h6⟩

/-- C5 witness: the specification example, valid JSON with only the review
key, is rejected rather than partially populated. -/
theorem C5_schema_all_or_nothing_witness :
    validateRR (.jobj [ (key_review, .jstr (("ok").data)) ]) = .error validationMsg :=
  (C5_schema_all_or_nothing [ (key_review, .jstr (("ok").data)) ] []).2.1
    ⟨key_strengths, by simp [requiredKeys], rfl⟩

/-! ## C8: only brace-delimited fence content matches -/

/-- A text wrapped in a json fence, the shape the test fixtures use. -/
def fenceWrap (s : List Char) : List Char :=
  ("\x60\x60\x60json\n").data ++ s ++ ("\n\x60\x60\x60").data

theorem dropWhile_eq_self_of_head {t : List Char} {c : Char}
    (h : t.head? = some c) (hc : pythonWs c = false) :
    t.dropWhile pythonWs = t := by
  cases t with
  | nil => rfl
  | cons a r =>
    have : a = c := by simpa using h
    subst this
    simp [List.dropWhile_cons, hc]

theorem stripPy_eq_self {t : List Char} {c1 c2 : Char}
    (h1 : t.head? = some c1) (hc1 : pythonWs c1 = false)
    (h2 : t.getLast? = some c2) (hc2 : pythonWs c2 = false) : stripPy t = t := by
  unfold stripPy
  rw [dropWhile_eq_self_of_head h1 hc1]
  have hrev : t.reverse.head? = some c2 := by rw [List.head?_reverse]; exact h2
  rw [dropWhile_eq_self_of_head hrev hc2, List.reverse_reverse]

/-- C8: the regex recognises a fenced block only when the enclosed group is
brace-delimited: every captured group opens with an opening brace and ends
with a closing brace; and a fence whose content has no opening brace at all
(a JSON array, a bare string) is not matched, so the candidate becomes the
entire trimmed raw text, fence markers included. -/
theorem C8_fence_only_braces (t g inner : List Char) :
    (findFence t = some g → g.head? = some '\x7b' ∧ g.getLast? = some '\x7d') ∧
    ('\x7b' ∉ inner → geminiCandidate (fenceWrap inner) = fenceWrap inner) := by
  constructor
  · intro h
    obtain ⟨i, hi, _⟩ := (findFence_some_iff t g).mp h
    obtain ⟨hh, hl, _⟩ := fenceAt_some_shape hi
    exact ⟨hh, hl⟩
  · intro h
    have hnob : '\x7b' ∉ fenceWrap inner := by
      intro hm
      unfold fenceWrap at hm
      rcases List.mem_append.mp hm with hm1 | hm2
      · rcases List.mem_append.mp hm1 with hm3 | hm4
        · simp at hm3
        · exact h hm4
      · simp at hm2
    have hf : findFence (fenceWrap inner) = none := findFence_none_no_brace hnob
    have hhead : (fenceWrap inner).head? = some '\x60' := rfl
    have hlast : (fenceWrap inner).getLast? = some '\x60' := by
      unfold fenceWrap
      rw [List.getLast?_append]
      rfl
    rw [geminiCandidate, hf]
    exact stripPy_eq_self hhead (by decide) hlast (by decide)

/-- C8 witness: a fenced JSON array is not matched; the candidate keeps the
fence markers. -/
theorem C8_fence_only_braces_witness :
    geminiCandidate (fenceWrap (("[1, 2]").data)) = fenceWrap (("[1, 2]").data) :=
  (C8_fence_only_braces [] [] (("[1, 2]").data)).2 (by decide)

/-! ## C1: characterisation of the candidate selection -/

/-- A decomposition of `t` at offset `i` witnessing the fenced-block
pattern of the regex: the opening token, a whitespace run, a group that is
brace-delimited on both ends, a whitespace run, the closing backticks, and
an arbitrary remainder. -/
def FenceDecomp (t : List Char) (i : Nat) (g : List Char) : Prop :=
  ∃ w1 w2 suf,
    t.drop i = fenceOpen ++ (w1 ++ (g ++ (w2 ++ (fenceTicks ++ suf)))) ∧
    (∀ c ∈ w1, pythonWs c = true) ∧ (∀ c ∈ w2, pythonWs c = true) ∧
    g.head? = some '\x7b' ∧ g.getLast? = some '\x7d'

theorem dropWhile_append_ws {w x : List Char} (h : ∀ c ∈ w, pythonWs c = true) :
    (w ++ x).dropWhile pythonWs = x.dropWhile pythonWs := by
  induction w with
  | nil => rfl
  | cons c w ih =>
    rw [List.cons_append, List.dropWhile_cons, if_pos (h c (List.mem_cons_self c w))]
    exact ih (fun c2 h2 => h c2 (List.mem_cons_of_mem _ h2))

/-- The whitespace-stripped remainder after the opening token, under a
decomposition: the group and everything after it. -/
theorem decomp_strip {s w1 g w2 suf : List Char}
    (hs : s = fenceOpen ++ (w1 ++ (g ++ (w2 ++ (fenceTicks ++ suf)))))
    (hw1 : ∀ c ∈ w1, pythonWs c = true) (hg : g.head? = some '\x7b') :
    (s.drop 7).dropWhile pythonWs = g ++ (w2 ++ (fenceTicks ++ suf)) := by
  have h7 : s.drop 7 = w1 ++ (g ++ (w2 ++ (fenceTicks ++ suf))) := by
    rw [hs]
    exact List.drop_left fenceOpen _
  rw [h7, dropWhile_append_ws hw1]
  exact dropWhile_eq_self_of_head (by cases g with
    | nil => simp at hg
    | cons a r => simpa using hg) (by
      have : g.head? = some '\x7b' := hg
      cases g with
      | nil => simp at hg
      | cons a r =>
        have : a = '\x7b' := by simpa using hg
        subst this
        decide)

/-- Under a decomposition the close condition holds at the group length. -/
theorem decomp_groupCloses {s w1 g w2 suf : List Char}
    (hs : s = fenceOpen ++ (w1 ++ (g ++ (w2 ++ (fenceTicks ++ suf)))))
    (hw1 : ∀ c ∈ w1, pythonWs c = true) (hw2 : ∀ c ∈ w2, pythonWs c = true)
    (hg : g.head? = some '\x7b') (hl : g.getLast? = some '\x7d') :
    groupCloses ((s.drop 7).dropWhile pythonWs) g.length = true := by
  rw [decomp_strip hs hw1 hg]
  unfold groupCloses
  rw [List.take_left, List.drop_left, dropWhile_append_ws hw2,
    @dropWhile_eq_self_of_head (fenceTicks ++ suf) '\x60' rfl (by decide)]
  rw [Bool.and_eq_true]
  exact ⟨decide_eq_true hl,
    List.isPrefixOf_iff_prefix.mpr (List.prefix_append fenceTicks suf)⟩

/-- Completeness of the anchored attempt: where a decomposition exists, the
attempt matches (possibly with a longer, greedier group). -/
theorem fenceAt_complete {s : List Char} {g : List Char}
    (h : ∃ w1 w2 suf,
      s = fenceOpen ++ (w1 ++ (g ++ (w2 ++ (fenceTicks ++ suf)))) ∧
      (∀ c ∈ w1, pythonWs c = true) ∧ (∀ c ∈ w2, pythonWs c = true) ∧
      g.head? = some '\x7b' ∧ g.getLast? = some '\x7d') :
    ∃ g2, fenceAt s = some g2 := by
  obtain ⟨w1, w2, suf, hs, hw1, hw2, hg, hl⟩ := h
  have hstrip := decomp_strip hs hw1 hg
  have hclose := decomp_groupCloses hs hw1 hw2 hg hl
  have hpre : fenceOpen.isPrefixOf s = true := by
    apply List.isPrefixOf_iff_prefix.mpr
    rw [hs]
    exact List.prefix_append _ _
  have hlen : g.length < ((s.drop 7).dropWhile pythonWs).length + 1 := by
    rw [hstrip, List.length_append]
    omega
  obtain ⟨m, hm⟩ := lastHit_complete hlen hclose
  refine ⟨((s.drop 7).dropWhile pythonWs).take m, ?_⟩
  simp only [fenceAt, hpre, if_true]
  rw [hstrip] at hm ⊢
  have hhead : (g ++ (w2 ++ (fenceTicks ++ suf))).head? = some '\x7b' := by
    cases g with
    | nil => simp at hg
    | cons a r => simpa using hg
  rw [hhead]
  simp only [if_pos rfl, hm]
  simp

/-- Soundness of the anchored attempt: a match yields a decomposition whose
group is the captured one, and the captured group is the longest group of
any decomposition anchored there. -/
theorem fenceAt_sound {s g : List Char} (h : fenceAt s = some g) :
    (∃ w1 w2 suf,
      s = fenceOpen ++ (w1 ++ (g ++ (w2 ++ (fenceTicks ++ suf)))) ∧
      (∀ c ∈ w1, pythonWs c = true) ∧ (∀ c ∈ w2, pythonWs c = true) ∧
      g.head? = some '\x7b' ∧ g.getLast? = some '\x7d') ∧
    (∀ g2 w1 w2 suf,
      s = fenceOpen ++ (w1 ++ (g2 ++ (w2 ++ (fenceTicks ++ suf)))) →
      (∀ c ∈ w1, pythonWs c = true) → (∀ c ∈ w2, pythonWs c = true) →
      g2.head? = some '\x7b' → g2.getLast? = some '\x7d' →
      g2.length ≤ g.length) := by
  obtain ⟨hpre, n, hgtake, hn, hhead, hclose, hmax⟩ := fenceAt_some_spec h
  obtain ⟨hg_head, hg_last, _⟩ := fenceAt_some_shape h
  constructor
  · -- build the decomposition from the match data
    obtain ⟨u, hu⟩ := List.isPrefixOf_iff_prefix.mp hpre
    have hu7 : u = s.drop 7 := by
      rw [← hu]
      exact (List.drop_left fenceOpen u).symm
    obtain ⟨hc1, hc2⟩ := Bool.and_eq_true _ _ |>.mp hclose
    obtain ⟨suf, hsuf⟩ :=
      List.isPrefixOf_iff_prefix.mp hc2
    refine ⟨(s.drop 7).takeWhile pythonWs,
      (((s.drop 7).dropWhile pythonWs).drop n).takeWhile pythonWs, suf, ?_,
      fun c hc => List.mem_takeWhile_imp hc,
      fun c hc => List.mem_takeWhile_imp hc, hg_head, hg_last⟩
    rw [← hu, hu7]
    congr 1
    calc s.drop 7
        = (s.drop 7).takeWhile pythonWs ++ (s.drop 7).dropWhile pythonWs := by
          rw [List.takeWhile_append_dropWhile]
      _ = (s.drop 7).takeWhile pythonWs ++
          (g ++ (((s.drop 7).dropWhile pythonWs).drop n)) := by
          rw [hgtake, List.take_append_drop]
      _ = (s.drop 7).takeWhile pythonWs ++
          (g ++ ((((s.drop 7).dropWhile pythonWs).drop n).takeWhile pythonWs ++
            (fenceTicks ++ suf))) := by
          rw [hsuf, List.takeWhile_append_dropWhile]
  · -- greediness: any anchored decomposition has a group no longer than n
    intro g2 w1 w2 suf hs hw1 hw2 hg2 hl2
    have hstrip := decomp_strip hs hw1 hg2
    have hclose2 := decomp_groupCloses hs hw1 hw2 hg2 hl2
    have hlen2 : g2.length ≤ ((s.drop 7).dropWhile pythonWs).length := by
      rw [hstrip, List.length_append]
      omega
    have hgn : g.length = n := by
      rw [hgtake]
      rw [List.length_take]
      omega
    rw [hgn]
    by_contra hgt
    have := hmax g2.length (by omega) hlen2
    rw [hclose2] at this
    cases this

/-- If the search fails, no offset matches. -/
theorem findFence_none_iff (t : List Char) :
    findFence t = none ↔ ∀ i, fenceAt (t.drop i) = none := by
  constructor
  · intro h
    induction t with
    | nil => intro i; rw [List.drop_nil]; rfl
    | cons c t ih =>
      rw [findFence] at h
      cases hAt : fenceAt (c :: t) with
      | some g0 => rw [hAt] at h; cases h
      | none =>
        rw [hAt] at h
        intro i
        cases i with
        | zero => rw [List.drop_zero]; exact hAt
        | succ i => rw [List.drop_succ_cons]; exact ih h i
  · exact findFence_none_of_all_none

/-- C1 (amended): the Response Extractor chooses its candidate by the
leftmost, greedy match of the fenced pattern.  When the search succeeds the
candidate is the captured group of a decomposition at the least matching
offset, and it is the longest group of any decomposition at that offset -
with several fenced blocks it therefore spans from the first block opening
brace to the last closing brace followed by a closing fence, not just the
first block content.  When no decomposition exists at any offset, the
candidate is the entire trimmed raw text. -/
theorem C1_candidate_selection (t g : List Char) :
    (findFence t = some g →
      ∃ i, FenceDecomp t i g ∧
        (∀ j g2, FenceDecomp t j g2 → i ≤ j) ∧
        (∀ g2, FenceDecomp t i g2 → g2.length ≤ g.length) ∧
        geminiCandidate t = g) ∧
    (findFence t = none →
      (∀ i g2, ¬ FenceDecomp t i g2) ∧ geminiCandidate t = stripPy t) := by
  constructor
  · intro h
    obtain ⟨i, hi, hmin⟩ := (findFence_some_iff t g).mp h
    obtain ⟨hdec, hgreedy⟩ := fenceAt_sound hi
    refine ⟨i, hdec, ?_, ?_, by rw [geminiCandidate, h]⟩
    · intro j g2 hj
      by_contra hji
      have hji2 : j < i := by omega
      obtain ⟨w1, w2, suf, hs, hw1, hw2, hg2, hl2⟩ := hj
      obtain ⟨g3, hg3⟩ := fenceAt_complete ⟨w1, w2, suf, hs, hw1, hw2, hg2, hl2⟩
      rw [hmin j hji2] at hg3
      cases hg3
    · intro g2 hg2d
      obtain ⟨w1, w2, suf, hs, hw1, hw2, hg2, hl2⟩ := hg2d
      exact hgreedy g2 w1 w2 suf hs hw1 hw2 hg2 hl2
  · intro h
    constructor
    · intro i g2 hdec
      obtain ⟨w1, w2, suf, hs, hw1, hw2, hg2, hl2⟩ := hdec
      obtain ⟨g3, hg3⟩ := fenceAt_complete ⟨w1, w2, suf, hs, hw1, hw2, hg2, hl2⟩
      rw [(findFence_none_iff t).mp h i] at hg3
      cases hg3
    · rw [geminiCandidate, h]

/-- C1 counterexample: a raw text with two fenced blocks.  The candidate is
not the content of the first fence: the greedy group runs from the first
block opening brace to the last block closing brace. -/
theorem C1_counterexample :
    geminiCandidate
        (("\x60\x60\x60json\n\x7b\"a\": \"1\"\x7d\n\x60\x60\x60\nand\n\x60\x60\x60json\n\x7b\"b\": \"2\"\x7d\n\x60\x60\x60").data)
      = ("\x7b\"a\": \"1\"\x7d\n\x60\x60\x60\nand\n\x60\x60\x60json\n\x7b\"b\": \"2\"\x7d").data ∧
    ¬ geminiCandidate
        (("\x60\x60\x60json\n\x7b\"a\": \"1\"\x7d\n\x60\x60\x60\nand\n\x60\x60\x60json\n\x7b\"b\": \"2\"\x7d\n\x60\x60\x60").data)
      = ("\x7b\"a\": \"1\"\x7d").data := by
  constructor
  · decide
  · decide


/-! ## C2: the serialization round trip

The string codec first: scanning an escaped character run undoes the
`ensure_ascii` escaping, character class by character class. -/

theorem hexDigitVal_digitChar : ∀ d < 16, hexDigitVal (Nat.digitChar d) = some d := by
  decide

theorem hexQuad_uEscape (n : Nat) (h : n < 0x10000) :
    hexQuad (Nat.digitChar (n / 4096 % 16)) (Nat.digitChar (n / 256 % 16))
      (Nat.digitChar (n / 16 % 16)) (Nat.digitChar (n % 16)) = some n := by
  have h1 := hexDigitVal_digitChar (n / 4096 % 16) (by omega)
  have h2 := hexDigitVal_digitChar (n / 256 % 16) (by omega)
  have h3 := hexDigitVal_digitChar (n / 16 % 16) (by omega)
  have h4 := hexDigitVal_digitChar (n % 16) (by omega)
  rw [hexQuad, h1, h2, h3, h4]
  show some _ = some n
  rw [Option.some.injEq]
  omega

/-- The code point bounds every `Char` satisfies. -/
theorem char_toNat_valid (c : Char) :
    c.toNat < 0xd800 ∨ (0xdfff < c.toNat ∧ c.toNat < 0x110000) := c.valid

/-- The encoding of one character in each class. -/
theorem encChar_plain {c : Char} (h1 : ¬ c = '"') (h2 : ¬ c = '\\')
    (h3 : ¬ c = '\x08') (h4 : ¬ c = '\t') (h5 : ¬ c = '\n') (h6 : ¬ c = '\x0c')
    (h7 : ¬ c = '\r') (h8 : 0x20 ≤ c.toNat ∧ c.toNat ≤ 0x7e) :
    encChar c = [ c ] := by
  unfold encChar
  rw [if_neg h1, if_neg h2, if_neg h3, if_neg h4, if_neg h5, if_neg h6, if_neg h7,
    if_pos h8]

theorem encChar_u {c : Char} (h1 : ¬ c = '"') (h2 : ¬ c = '\\')
    (h3 : ¬ c = '\x08') (h4 : ¬ c = '\t') (h5 : ¬ c = '\n') (h6 : ¬ c = '\x0c')
    (h7 : ¬ c = '\r') (h8 : ¬ (0x20 ≤ c.toNat ∧ c.toNat ≤ 0x7e))
    (h9 : c.toNat ≤ 0xffff) : encChar c = uEscape c.toNat := by
  unfold encChar
  rw [if_neg h1, if_neg h2, if_neg h3, if_neg h4, if_neg h5, if_neg h6, if_neg h7,
    if_neg h8, if_pos h9]

theorem encChar_pair {c : Char} (h1 : ¬ c = '"') (h2 : ¬ c = '\\')
    (h3 : ¬ c = '\x08') (h4 : ¬ c = '\t') (h5 : ¬ c = '\n') (h6 : ¬ c = '\x0c')
    (h7 : ¬ c = '\r') (h8 : ¬ (0x20 ≤ c.toNat ∧ c.toNat ≤ 0x7e))
    (h9 : ¬ c.toNat ≤ 0xffff) :
    encChar c = uEscape (0xd800 + (c.toNat - 0x10000) / 0x400) ++
      uEscape (0xdc00 + (c.toNat - 0x10000) % 0x400) := by
  unfold encChar
  rw [if_neg h1, if_neg h2, if_neg h3, if_neg h4, if_neg h5, if_neg h6, if_neg h7,
    if_neg h8, if_neg h9]

/-- Scanning the whole escaped body of a string stops at the closing quote
and recovers the original characters. -/
theorem scan_encBody : ∀ (s rest : List Char) (fu : Nat),
    (s.flatMap encChar).length + 2 ≤ fu →
    scanStringBody fu (s.flatMap encChar ++ ('"' :: rest)) = .ok (s, rest) := by
  intro s
  induction s with
  | nil =>
    intro rest fu h
    obtain ⟨f, rfl⟩ : ∃ f, fu = f + 1 := ⟨fu - 1, by omega⟩
    rw [List.flatMap_nil, List.nil_append, scanStringBody]
    simp
  | cons c s ih =>
    intro rest fu h
    rw [List.flatMap_cons, List.length_append] at h
    rw [List.flatMap_cons, List.append_assoc]
    by_cases h1 : c = '"'
    · subst h1
      have hc : encChar '"' = [ '\\', '"' ] := rfl
      rw [hc] at h ⊢
      obtain ⟨f, rfl⟩ : ∃ f, fu = f + 2 := ⟨fu - 2, by simp at h; omega⟩
      have hih := ih rest f (by simp at h ⊢; omega)
      show scanStringBody (f + 1 + 1) ('\\' :: '"' :: _) = _
      rw [scanStringBody]
      simp only [if_neg (by decide : ¬('\\' : Char) = '"'), if_pos rfl]
      rw [scanEscape]
      simp [escMap, hih]
    by_cases h2 : c = '\\'
    · subst h2
      have hc : encChar '\\' = [ '\\', '\\' ] := rfl
      rw [hc] at h ⊢
      obtain ⟨f, rfl⟩ : ∃ f, fu = f + 2 := ⟨fu - 2, by simp at h; omega⟩
      have hih := ih rest f (by simp at h ⊢; omega)
      show scanStringBody (f + 1 + 1) ('\\' :: '\\' :: _) = _
      rw [scanStringBody]
      simp only [if_neg (by decide : ¬('\\' : Char) = '"'), if_pos rfl]
      rw [scanEscape]
      simp [escMap, hih]
    by_cases h3 : c = '\x08'
    · subst h3
      have hc : encChar '\x08' = [ '\\', 'b' ] := rfl
      rw [hc] at h ⊢
      obtain ⟨f, rfl⟩ : ∃ f, fu = f + 2 := ⟨fu - 2, by simp at h; omega⟩
      have hih := ih rest f (by simp at h ⊢; omega)
      show scanStringBody (f + 1 + 1) ('\\' :: 'b' :: _) = _
      rw [scanStringBody]
      simp only [if_neg (by decide : ¬('\\' : Char) = '"'), if_pos rfl]
      rw [scanEscape]
      simp [escMap, hih]
    by_cases h4 : c = '\t'
    · subst h4
      have hc : encChar '\t' = [ '\\', 't' ] := rfl
      rw [hc] at h ⊢
      obtain ⟨f, rfl⟩ : ∃ f, fu = f + 2 := ⟨fu - 2, by simp at h; omega⟩
      have hih := ih rest f (by simp at h ⊢; omega)
      show scanStringBody (f + 1 + 1) ('\\' :: 't' :: _) = _
      rw [scanStringBody]
      simp only [if_neg (by decide : ¬('\\' : Char) = '"'), if_pos rfl]
      rw [scanEscape]
      simp [escMap, hih]
    by_cases h5 : c = '\n'
    · subst h5
      have hc : encChar '\n' = [ '\\', 'n' ] := rfl
      rw [hc] at h ⊢
      obtain ⟨f, rfl⟩ : ∃ f, fu = f + 2 := ⟨fu - 2, by simp at h; omega⟩
      have hih := ih rest f (by simp at h ⊢; omega)
      show scanStringBody (f + 1 + 1) ('\\' :: 'n' :: _) = _
      rw [scanStringBody]
      simp only [if_neg (by decide : ¬('\\' : Char) = '"'), if_pos rfl]
      rw [scanEscape]
      simp [escMap, hih]
    by_cases h6 : c = '\x0c'
    · subst h6
      have hc : encChar '\x0c' = [ '\\', 'f' ] := rfl
      rw [hc] at h ⊢
      obtain ⟨f, rfl⟩ : ∃ f, fu = f + 2 := ⟨fu - 2, by simp at h; omega⟩
      have hih := ih rest f (by simp at h ⊢; omega)
      show scanStringBody (f + 1 + 1) ('\\' :: 'f' :: _) = _
      rw [scanStringBody]
      simp only [if_neg (by decide : ¬('\\' : Char) = '"'), if_pos rfl]
      rw [scanEscape]
      simp [escMap, hih]
    by_cases h7 : c = '\r'
    · subst h7
      have hc : encChar '\r' = [ '\\', 'r' ] := rfl
      rw [hc] at h ⊢
      obtain ⟨f, rfl⟩ : ∃ f, fu = f + 2 := ⟨fu - 2, by simp at h; omega⟩
      have hih := ih rest f (by simp at h ⊢; omega)
      show scanStringBody (f + 1 + 1) ('\\' :: 'r' :: _) = _
      rw [scanStringBody]
      simp only [if_neg (by decide : ¬('\\' : Char) = '"'), if_pos rfl]
      rw [scanEscape]
      simp [escMap, hih]
    by_cases h8 : 0x20 ≤ c.toNat ∧ c.toNat ≤ 0x7e
    · have hc := encChar_plain h1 h2 h3 h4 h5 h6 h7 h8
      rw [hc] at h ⊢
      obtain ⟨f, rfl⟩ : ∃ f, fu = f + 1 := ⟨fu - 1, by simp at h; omega⟩
      have hih := ih rest f (by simp at h ⊢; omega)
      show scanStringBody (f + 1) (c :: _) = _
      rw [scanStringBody]
      simp only [if_neg h1, if_neg h2, if_neg (by omega : ¬ c.toNat < 0x20)]
      simp [hih]
    by_cases h9 : c.toNat ≤ 0xffff
    · have hc := encChar_u h1 h2 h3 h4 h5 h6 h7 h8 h9
      rw [hc] at h ⊢
      rw [uEscape] at h
      obtain ⟨f, rfl⟩ : ∃ f, fu = f + 3 := ⟨fu - 3, by simp at h; omega⟩
      have hih := ih rest f (by simp at h ⊢; omega)
      have hval : c.toNat < 0xd800 ∨ 0xe000 ≤ c.toNat := by
        rcases char_toNat_valid c with hv | hv
        · exact Or.inl hv
        · exact Or.inr (by omega)
      rw [uEscape]
      show scanStringBody (f + 2 + 1) ('\\' :: 'u' :: _ :: _ :: _ :: _ :: _) = _
      rw [scanStringBody]
      simp only [if_neg (by decide : ¬('\\' : Char) = '"'), if_pos rfl]
      rw [scanEscape]
      simp only [if_pos rfl]
      rw [scanUnicode, hexQuad_uEscape c.toNat (by omega)]
      simp only [if_pos hval, Char.ofNat_toNat]
      simp [hih]
    have hn : 0x10000 ≤ c.toNat ∧ c.toNat < 0x110000 := by
      rcases char_toNat_valid c with hv | hv
      · omega
      · omega
    have hc := encChar_pair h1 h2 h3 h4 h5 h6 h7 h8 h9
    rw [hc] at h ⊢
    rw [uEscape, uEscape] at h
    obtain ⟨f, rfl⟩ : ∃ f, fu = f + 4 := ⟨fu - 4, by simp at h; omega⟩
    have hih := ih rest f (by simp at h ⊢; omega)
    have hhi : ¬ (0xd800 + (c.toNat - 0x10000) / 0x400 < 0xd800 ∨
        0xe000 ≤ 0xd800 + (c.toNat - 0x10000) / 0x400) := by omega
    have hhi2 : 0xd800 + (c.toNat - 0x10000) / 0x400 < 0xdc00 := by omega
    have hlo : 0xdc00 ≤ 0xdc00 + (c.toNat - 0x10000) % 0x400 ∧
        0xdc00 + (c.toNat - 0x10000) % 0x400 < 0xe000 := by omega
    have harith : 0x10000 + (0xd800 + (c.toNat - 0x10000) / 0x400 - 0xd800) * 0x400 +
        (0xdc00 + (c.toNat - 0x10000) % 0x400 - 0xdc00) = c.toNat := by omega
    rw [uEscape, uEscape, List.append_assoc]
    show scanStringBody (f + 3 + 1)
      ('\\' :: 'u' :: _ :: _ :: _ :: _ :: ('\\' :: 'u' :: _ :: _ :: _ :: _ :: _)) = _
    rw [scanStringBody]
    simp only [if_neg (by decide : ¬('\\' : Char) = '"'), if_pos rfl]
    rw [scanEscape]
    simp only [if_pos rfl]
    rw [scanUnicode, hexQuad_uEscape (0xd800 + (c.toNat - 0x10000) / 0x400) (by omega)]
    simp only [if_neg hhi, if_pos hhi2]
    rw [scanLowPart]
    simp only [if_pos (by exact ⟨rfl, rfl⟩ : ('\\' : Char) = '\\' ∧ ('u' : Char) = 'u'),
      hexQuad_uEscape (0xdc00 + (c.toNat - 0x10000) % 0x400) (by omega),
      if_pos hlo, harith, Char.ofNat_toNat]
    simp [hih]

/-- Skipping JSON whitespace leaves a list headed by a non-whitespace
character unchanged. -/
theorem jsonSkip_cons_false {c : Char} {l : List Char} (h : jsonWs c = false) :
    jsonSkip (c :: l) = c :: l := by
  simp [jsonSkip, List.dropWhile_cons, h]

theorem jsonSkip_cons_true {c : Char} {l : List Char} (h : jsonWs c = true) :
    jsonSkip (c :: l) = jsonSkip l := by
  simp [jsonSkip, List.dropWhile_cons, h]

theorem jsonSkip_dumpsStr (s x : List Char) :
    jsonSkip (dumpsStr s ++ x) = dumpsStr s ++ x := by
  rw [dumpsStr, List.cons_append]
  exact jsonSkip_cons_false (by decide)

/-- A dumped string sits at the head of the scanner input: one value of
fuel suffices, the string branch supplies its own string fuel. -/
theorem scanValue_str (s rest : List Char) (fu : Nat) (h : 1 ≤ fu) :
    scanValue fu (dumpsStr s ++ rest) = .ok (.jstr s, rest) := by
  obtain ⟨f, rfl⟩ : ∃ f, fu = f + 1 := ⟨fu - 1, by omega⟩
  have hshape : dumpsStr s ++ rest = '"' :: (s.flatMap encChar ++ ('"' :: rest)) := by
    rw [dumpsStr, List.cons_append, List.append_assoc]
    rfl
  rw [hshape, scanValue]
  simp only [if_pos rfl]
  rw [scan_encBody s rest ((s.flatMap encChar ++ ('"' :: rest)).length + 2)
    (by simp [List.length_append])]
  simp

/-- One-or-more dumped strings, comma-space separated, closed by a bracket:
the item scanner returns exactly those strings. -/
theorem scanItems_strs : ∀ (l : List (List Char)) (s rest : List Char) (fu : Nat),
    l.length + 2 ≤ fu →
    scanItems fu (dumpsStr s ++ (itemsRest (l.map Json.jstr) ++ (']' :: rest)))
      = .ok ((s :: l).map Json.jstr, rest) := by
  intro l
  induction l with
  | nil =>
    intro s rest fu h
    obtain ⟨f, rfl⟩ : ∃ f, fu = f + 1 := ⟨fu - 1, by omega⟩
    rw [scanItems]
    have h0 : itemsRest (([] : List (List Char)).map Json.jstr) ++ (']' :: rest)
        = ']' :: rest := rfl
    rw [h0, scanValue_str s (']' :: rest) f (by omega)]
    have h1 : jsonSkip (']' :: rest) = ']' :: rest := jsonSkip_cons_false (by decide)
    simp [h1]
  | cons s2 l2 ih =>
    intro s rest fu h
    obtain ⟨f, rfl⟩ : ∃ f, fu = f + 1 := ⟨fu - 1, by omega⟩
    rw [scanItems]
    have h0 : itemsRest ((s2 :: l2).map Json.jstr) ++ (']' :: rest)
        = ',' :: (' ' :: (dumpsStr s2 ++ itemsRest (l2.map Json.jstr)) ++ (']' :: rest)) := rfl
    rw [h0, scanValue_str s _ f (by omega)]
    have h1 : jsonSkip (',' :: ' ' :: (dumpsStr s2 ++ (itemsRest (l2.map Json.jstr) ++ (']' :: rest))))
        = ',' :: ' ' :: (dumpsStr s2 ++ (itemsRest (l2.map Json.jstr) ++ (']' :: rest))) :=
      jsonSkip_cons_false (by decide)
    have h2 : jsonSkip (' ' :: (dumpsStr s2 ++ (itemsRest (l2.map Json.jstr) ++ (']' :: rest))))
        = dumpsStr s2 ++ (itemsRest (l2.map Json.jstr) ++ (']' :: rest)) := by
      rw [jsonSkip_cons_true (by decide), jsonSkip_dumpsStr]
    have h3 := ih s2 rest f (by simp at h; omega)
    simp [h1, h2, h3]

/-- A dumped array of strings scans back to itself. -/
theorem scanValue_strArr (l : List (List Char)) (rest : List Char) (fu : Nat)
    (h : l.length + 4 ≤ fu) :
    scanValue fu (dumpsVal (.jarr (l.map Json.jstr)) ++ rest)
      = .ok (.jarr (l.map Json.jstr), rest) := by
  obtain ⟨f, rfl⟩ : ∃ f, fu = f + 1 := ⟨fu - 1, by omega⟩
  have hd : dumpsVal (Json.jarr (l.map Json.jstr)) ++ rest
      = '[' :: (dumpsItems (l.map Json.jstr) ++ (']' :: rest)) := by
    show ('[' :: (dumpsItems (l.map Json.jstr) ++ [ ']' ])) ++ rest = _
    rw [List.cons_append, List.append_assoc]
    rfl
  rw [hd, scanValue]
  simp only [if_neg (by decide : ¬('[' : Char) = '"'),
    if_neg (by decide : ¬('[' : Char) = '\x7b'), if_pos rfl]
  cases l with
  | nil =>
    have h0 : dumpsItems (([] : List (List Char)).map Json.jstr) ++ (']' :: rest)
        = ']' :: rest := rfl
    rw [h0, jsonSkip_cons_false (by decide)]
    obtain ⟨f2, rfl⟩ : ∃ f2, f = f2 + 1 := ⟨f - 1, by omega⟩
    rfl
  | cons s l2 =>
    have h0 : dumpsItems ((s :: l2).map Json.jstr) ++ (']' :: rest)
        = dumpsStr s ++ (itemsRest (l2.map Json.jstr) ++ (']' :: rest)) := by
      show (dumpsStr s ++ itemsRest (l2.map Json.jstr)) ++ (']' :: rest) = _
      rw [List.append_assoc]
    rw [h0, jsonSkip_dumpsStr]
    obtain ⟨f2, rfl⟩ : ∃ f2, f = f2 + 1 := ⟨f - 1, by omega⟩
    have hred : scanArrOpen (f2 + 1) (dumpsStr s ++ (itemsRest (l2.map Json.jstr) ++ (']' :: rest)))
        = match scanItems f2 (dumpsStr s ++ (itemsRest (l2.map Json.jstr) ++ (']' :: rest))) with
          | .ok (items, r2) => .ok (.jarr items, r2)
          | .error e => .error e := rfl
    rw [hred, scanItems_strs l2 s rest f2 (by simp at h; omega)]
    simp

/-- A value whose serialization starts with a non-whitespace character and
scans back to the value with fuel `n`. -/
def GoodVal (n : Nat) (v : Json) : Prop :=
  (∃ c r, dumpsVal v = c :: r ∧ jsonWs c = false) ∧
  ∀ rest fu, n ≤ fu → scanValue fu (dumpsVal v ++ rest) = .ok (v, rest)

theorem goodVal_mono {n m : Nat} {v : Json} (h : n ≤ m) (hg : GoodVal n v) :
    GoodVal m v :=
  ⟨hg.1, fun rest fu hf => hg.2 rest fu (by omega)⟩

theorem goodVal_str (s : List Char) : GoodVal 1 (Json.jstr s) :=
  ⟨⟨'"', s.flatMap encChar ++ [ '"' ], rfl, by decide⟩,
   fun rest fu h => scanValue_str s rest fu h⟩

theorem goodVal_strArr (l : List (List Char)) :
    GoodVal (l.length + 4) (Json.jarr (l.map Json.jstr)) := by
  refine ⟨?_, fun rest fu h => scanValue_strArr l rest fu h⟩
  cases l with
  | nil => exact ⟨'[', [ ']' ], rfl, by decide⟩
  | cons s l2 => exact ⟨'[', dumpsStr s ++ itemsRest (l2.map Json.jstr) ++ [ ']' ], rfl, by decide⟩

theorem jsonSkip_goodVal {n : Nat} {v : Json} (hv : GoodVal n v) (x : List Char) :
    jsonSkip (dumpsVal v ++ x) = dumpsVal v ++ x := by
  obtain ⟨c0, r0, he0, hw0⟩ := hv.1
  rw [he0, List.cons_append]
  exact jsonSkip_cons_false hw0

/-- The string-body scanner applied to a full escaped key with the fuel the
member scanner supplies. -/
theorem scanStringBody_self (k tail : List Char) :
    scanStringBody ((k.flatMap encChar ++ ('"' :: tail)).length + 2)
      (k.flatMap encChar ++ ('"' :: tail)) = .ok (k, tail) :=
  scan_encBody k tail _ (by simp [List.length_append])

/-- The member scanner, fed from just after a key opening quote, recovers a
comma-space separated chain of serialized members closed by a brace.  Each
value is assumed scannable with fuel `n` (`GoodVal`). -/
theorem scanMembers_chain (n : Nat) : ∀ (ms : List (List Char × Json)),
    ∀ (k : List Char) (v : Json) (rest : List Char) (fu : Nat),
    GoodVal n v → (∀ p ∈ ms, GoodVal n p.2) → n + ms.length + 1 ≤ fu →
    scanMembers fu (k.flatMap encChar ++ ('"' :: (':' :: ' ' ::
        (dumpsVal v ++ (membersRest ms ++ ('\x7d' :: rest))))))
      = .ok ((k, v) :: ms, rest) := by
  intro ms
  induction ms with
  | nil =>
    intro k v rest fu hv hms hfu
    obtain ⟨f, rfl⟩ : ∃ f, fu = f + 1 := ⟨fu - 1, by omega⟩
    rw [show membersRest ([] : List (List Char × Json)) ++ ('\x7d' :: rest)
        = '\x7d' :: rest from rfl]
    rw [scanMembers, scanStringBody_self]
    have h1 : jsonSkip (':' :: ' ' :: (dumpsVal v ++ ('\x7d' :: rest)))
        = ':' :: ' ' :: (dumpsVal v ++ ('\x7d' :: rest)) := jsonSkip_cons_false (by decide)
    have h2 : jsonSkip (' ' :: (dumpsVal v ++ ('\x7d' :: rest)))
        = dumpsVal v ++ ('\x7d' :: rest) := by
      rw [jsonSkip_cons_true (by decide), jsonSkip_goodVal hv]
    have h3 := hv.2 ('\x7d' :: rest) f (by omega)
    have h4 : jsonSkip ('\x7d' :: rest) = '\x7d' :: rest := jsonSkip_cons_false (by decide)
    simp [h1, h2, h3, h4]
  | cons p ms2 ih =>
    obtain ⟨k2, v2⟩ := p
    intro k v rest fu hv hms hfu
    simp only [List.length_cons] at hfu
    obtain ⟨f, rfl⟩ : ∃ f, fu = f + 1 := ⟨fu - 1, by omega⟩
    have hmr : membersRest ((k2, v2) :: ms2) ++ ('\x7d' :: rest)
        = ',' :: ' ' :: (dumpsStr k2 ++ (':' :: ' ' ::
            (dumpsVal v2 ++ (membersRest ms2 ++ ('\x7d' :: rest))))) := by
      show (',' :: ' ' :: (dumpsStr k2 ++ (':' :: ' ' ::
          (dumpsVal v2 ++ membersRest ms2)))) ++ ('\x7d' :: rest) = _
      simp [List.append_assoc]
    rw [hmr, scanMembers, scanStringBody_self]
    have h1 : jsonSkip (':' :: ' ' :: (dumpsVal v ++ (',' :: ' ' :: (dumpsStr k2 ++ (':' :: ' ' ::
        (dumpsVal v2 ++ (membersRest ms2 ++ ('\x7d' :: rest))))))))
        = ':' :: ' ' :: (dumpsVal v ++ (',' :: ' ' :: (dumpsStr k2 ++ (':' :: ' ' ::
        (dumpsVal v2 ++ (membersRest ms2 ++ ('\x7d' :: rest))))))) :=
      jsonSkip_cons_false (by decide)
    have h2 : jsonSkip (' ' :: (dumpsVal v ++ (',' :: ' ' :: (dumpsStr k2 ++ (':' :: ' ' ::
        (dumpsVal v2 ++ (membersRest ms2 ++ ('\x7d' :: rest))))))))
        = dumpsVal v ++ (',' :: ' ' :: (dumpsStr k2 ++ (':' :: ' ' ::
        (dumpsVal v2 ++ (membersRest ms2 ++ ('\x7d' :: rest)))))) := by
      rw [jsonSkip_cons_true (by decide), jsonSkip_goodVal hv]
    have h3 := hv.2 (',' :: ' ' :: (dumpsStr k2 ++ (':' :: ' ' ::
        (dumpsVal v2 ++ (membersRest ms2 ++ ('\x7d' :: rest)))))) f (by omega)
    have h4 : jsonSkip (' ' :: (dumpsStr k2 ++ (':' :: ' ' ::
        (dumpsVal v2 ++ (membersRest ms2 ++ ('\x7d' :: rest))))))
        = '"' :: (k2.flatMap encChar ++ ('"' :: (':' :: ' ' ::
            (dumpsVal v2 ++ (membersRest ms2 ++ ('\x7d' :: rest)))))) := by
      rw [jsonSkip_cons_true (by decide), jsonSkip_dumpsStr, dumpsStr]
      simp [List.append_assoc]
    have h5 := ih k2 v2 rest f (hms (k2, v2) (List.mem_cons_self _ _))
      (fun q hq => hms q (List.mem_cons_of_mem _ hq)) (by omega)
    have h6 : jsonSkip (',' :: ' ' :: (dumpsStr k2 ++ (':' :: ' ' ::
        (dumpsVal v2 ++ (membersRest ms2 ++ ('\x7d' :: rest))))))
        = ',' :: ' ' :: (dumpsStr k2 ++ (':' :: ' ' ::
        (dumpsVal v2 ++ (membersRest ms2 ++ ('\x7d' :: rest))))) :=
      jsonSkip_cons_false (by decide)
    simp [h1, h2, h3, h4, h5, h6]

/-- A dumped nonempty object scans back to itself when every member value is
scannable (`GoodVal n`). -/
theorem scanValue_dumpsObj (n : Nat) (k : List Char) (v : Json)
    (ms : List (List Char × Json)) (rest : List Char) (fu : Nat)
    (hv : GoodVal n v) (hms : ∀ p ∈ ms, GoodVal n p.2)
    (hfu : n + ms.length + 3 ≤ fu) :
    scanValue fu (dumpsVal (.jobj ((k, v) :: ms)) ++ rest)
      = .ok (.jobj ((k, v) :: ms), rest) := by
  obtain ⟨f, rfl⟩ : ∃ f, fu = f + 1 := ⟨fu - 1, by omega⟩
  have hd : dumpsVal (Json.jobj ((k, v) :: ms)) ++ rest
      = '\x7b' :: (dumpsStr k ++ ((':' :: ' ' :: (dumpsVal v ++ membersRest ms))
          ++ ('\x7d' :: rest))) := by
    show ('\x7b' :: (dumpsMembers ((k, v) :: ms) ++ [ '\x7d' ])) ++ rest = _
    show '\x7b' :: ((dumpsMembers ((k, v) :: ms) ++ [ '\x7d' ]) ++ rest) = _
    rw [show dumpsMembers ((k, v) :: ms)
        = dumpsStr k ++ (':' :: ' ' :: (dumpsVal v ++ membersRest ms)) from rfl]
    simp [List.append_assoc]
  rw [hd, scanValue]
  simp only [if_neg (by decide : ¬('\x7b' : Char) = '"'), if_pos rfl]
  rw [show jsonSkip (dumpsStr k ++ ((':' :: ' ' :: (dumpsVal v ++ membersRest ms))
      ++ ('\x7d' :: rest)))
      = dumpsStr k ++ ((':' :: ' ' :: (dumpsVal v ++ membersRest ms))
      ++ ('\x7d' :: rest)) from jsonSkip_dumpsStr _ _]
  obtain ⟨f2, rfl⟩ : ∃ f2, f = f2 + 1 := ⟨f - 1, by omega⟩
  have hcons : dumpsStr k ++ ((':' :: ' ' :: (dumpsVal v ++ membersRest ms)) ++ ('\x7d' :: rest))
      = '"' :: (k.flatMap encChar ++ ('"' :: (':' :: ' ' ::
          (dumpsVal v ++ (membersRest ms ++ ('\x7d' :: rest)))))) := by
    rw [dumpsStr]
    simp [List.append_assoc]
  rw [hcons]
  have hred : scanObjOpen (f2 + 1) ('"' :: (k.flatMap encChar ++ ('"' :: (':' :: ' ' ::
      (dumpsVal v ++ (membersRest ms ++ ('\x7d' :: rest)))))))
      = match scanMembers f2 (k.flatMap encChar ++ ('"' :: (':' :: ' ' ::
          (dumpsVal v ++ (membersRest ms ++ ('\x7d' :: rest)))))) with
        | .ok (ms2, r2) => .ok (.jobj ms2, r2)
        | .error e => .error e := rfl
  rw [hred, scanMembers_chain n ms k v rest f2 hv hms (by omega)]
  simp

/-- The total element count of the five sequence fields, which drives the
scanner fuel the round trip needs. -/
def rrElems (x : ResumeReviewResponse) : Nat :=
  x.strengths.length + x.weaknesses.length + x.suggestions.length +
    x.matched_keywords.length + x.missing_keywords.length

/-- The serialized response model scans back to its JSON object. -/
theorem scanValue_rrToJson (x : ResumeReviewResponse) (rest : List Char) (fu : Nat)
    (hfu : rrElems x + 12 ≤ fu) :
    scanValue fu (dumpsRR x ++ rest) = .ok (rrToJson x, rest) := by
  have happ : scanValue fu (dumpsVal (.jobj ((key_review, Json.jstr x.review) ::
      [ (key_strengths, Json.jarr (x.strengths.map Json.jstr)),
        (key_weaknesses, Json.jarr (x.weaknesses.map Json.jstr)),
        (key_suggestions, Json.jarr (x.suggestions.map Json.jstr)),
        (key_matched, Json.jarr (x.matched_keywords.map Json.jstr)),
        (key_missing, Json.jarr (x.missing_keywords.map Json.jstr)) ])) ++ rest)
      = .ok (.jobj ((key_review, Json.jstr x.review) ::
      [ (key_strengths, Json.jarr (x.strengths.map Json.jstr)),
        (key_weaknesses, Json.jarr (x.weaknesses.map Json.jstr)),
        (key_suggestions, Json.jarr (x.suggestions.map Json.jstr)),
        (key_matched, Json.jarr (x.matched_keywords.map Json.jstr)),
        (key_missing, Json.jarr (x.missing_keywords.map Json.jstr)) ]), rest) := by
    apply scanValue_dumpsObj (rrElems x + 4)
    · exact goodVal_mono (by omega) (goodVal_str x.review)
    · intro p hp
      simp only [List.mem_cons, List.not_mem_nil, or_false] at hp
      rcases hp with h | h | h | h | h <;> subst h <;>
        exact goodVal_mono (by simp only [rrElems]; omega) (goodVal_strArr _)
    · simp only [List.length_cons, List.length_nil]
      omega
  exact happ

/-- Each separator of an item chain contributes two characters. -/
theorem itemsRest_strs_len (l : List (List Char)) :
    l.length ≤ (itemsRest (l.map Json.jstr)).length := by
  induction l with
  | nil => simp [itemsRest]
  | cons s l2 ih =>
    rw [show itemsRest ((s :: l2).map Json.jstr)
        = ',' :: ' ' :: (dumpsStr s ++ itemsRest (l2.map Json.jstr)) from rfl]
    simp only [List.length_cons, List.length_append]
    omega

/-- A dumped string array is at least two characters longer than its element
count. -/
theorem dumpsArr_strs_len (l : List (List Char)) :
    l.length + 2 ≤ (dumpsVal (Json.jarr (l.map Json.jstr))).length := by
  cases l with
  | nil => decide
  | cons s l2 =>
    rw [show dumpsVal (Json.jarr ((s :: l2).map Json.jstr))
        = '[' :: ((dumpsStr s ++ itemsRest (l2.map Json.jstr)) ++ [ ']' ]) from rfl]
    have := itemsRest_strs_len l2
    have hs : 2 ≤ (dumpsStr s).length := by
      rw [dumpsStr]
      simp only [List.length_cons, List.length_append]
      omega
    simp only [List.length_cons, List.length_append]
    omega

/-- The serialized model is long enough to cover the scanner fuel bound. -/
theorem dumpsRR_len (x : ResumeReviewResponse) :
    rrElems x + 10 ≤ (dumpsRR x).length := by
  have e : dumpsRR x
      = '\x7b' :: ((dumpsStr key_review ++ (':' :: ' ' :: (dumpsStr x.review ++
        (',' :: ' ' :: (dumpsStr key_strengths ++ (':' :: ' ' ::
          (dumpsVal (Json.jarr (x.strengths.map Json.jstr)) ++
        (',' :: ' ' :: (dumpsStr key_weaknesses ++ (':' :: ' ' ::
          (dumpsVal (Json.jarr (x.weaknesses.map Json.jstr)) ++
        (',' :: ' ' :: (dumpsStr key_suggestions ++ (':' :: ' ' ::
          (dumpsVal (Json.jarr (x.suggestions.map Json.jstr)) ++
        (',' :: ' ' :: (dumpsStr key_matched ++ (':' :: ' ' ::
          (dumpsVal (Json.jarr (x.matched_keywords.map Json.jstr)) ++
        (',' :: ' ' :: (dumpsStr key_missing ++ (':' :: ' ' ::
          (dumpsVal (Json.jarr (x.missing_keywords.map Json.jstr)) ++
            []))))))))))))))))))))))) ++ [ '\x7d' ]) := rfl
  rw [e]
  have h1 := dumpsArr_strs_len x.strengths
  have h2 := dumpsArr_strs_len x.weaknesses
  have h3 := dumpsArr_strs_len x.suggestions
  have h4 := dumpsArr_strs_len x.matched_keywords
  have h5 := dumpsArr_strs_len x.missing_keywords
  simp only [rrElems, List.length_cons, List.length_append, List.length_nil,
    List.length_singleton]
  omega

/-- `json.loads` inverts `json.dumps` on the response model. -/
theorem json_loads_dumpsRR (x : ResumeReviewResponse) :
    json_loads (dumpsRR x) = .ok (rrToJson x) := by
  rw [json_loads]
  have hskip : jsonSkip (dumpsRR x) = dumpsRR x := by
    show jsonSkip ('\x7b' :: _) = _
    exact jsonSkip_cons_false (by decide)
  rw [hskip]
  have hlen := dumpsRR_len x
  have hsv := scanValue_rrToJson x [] (2 * (dumpsRR x).length + 2) (by omega)
  rw [List.append_nil] at hsv
  rw [hsv]
  simp [jsonSkip]

/-- Pydantic validation inverts `rrToJson`: the six lookups succeed with the
six fields and reassemble the model. -/
theorem validateRR_rrToJson (x : ResumeReviewResponse) :
    validateRR (rrToJson x) = .ok x := by
  rw [show rrToJson x = Json.jobj
      [ (key_review, Json.jstr x.review),
        (key_strengths, Json.jarr (x.strengths.map Json.jstr)),
        (key_weaknesses, Json.jarr (x.weaknesses.map Json.jstr)),
        (key_suggestions, Json.jarr (x.suggestions.map Json.jstr)),
        (key_matched, Json.jarr (x.matched_keywords.map Json.jstr)),
        (key_missing, Json.jarr (x.missing_keywords.map Json.jstr)) ] from rfl]
  rw [validateRR]
  rw [show objGet
      [ (key_review, Json.jstr x.review),
        (key_strengths, Json.jarr (x.strengths.map Json.jstr)),
        (key_weaknesses, Json.jarr (x.weaknesses.map Json.jstr)),
        (key_suggestions, Json.jarr (x.suggestions.map Json.jstr)),
        (key_matched, Json.jarr (x.matched_keywords.map Json.jstr)),
        (key_missing, Json.jarr (x.missing_keywords.map Json.jstr)) ] key_review
      = some (Json.jstr x.review) from rfl]
  rw [show objGet
      [ (key_review, Json.jstr x.review),
        (key_strengths, Json.jarr (x.strengths.map Json.jstr)),
        (key_weaknesses, Json.jarr (x.weaknesses.map Json.jstr)),
        (key_suggestions, Json.jarr (x.suggestions.map Json.jstr)),
        (key_matched, Json.jarr (x.matched_keywords.map Json.jstr)),
        (key_missing, Json.jarr (x.missing_keywords.map Json.jstr)) ] key_strengths
      = some (Json.jarr (x.strengths.map Json.jstr)) from rfl]
  rw [show objGet
      [ (key_review, Json.jstr x.review),
        (key_strengths, Json.jarr (x.strengths.map Json.jstr)),
        (key_weaknesses, Json.jarr (x.weaknesses.map Json.jstr)),
        (key_suggestions, Json.jarr (x.suggestions.map Json.jstr)),
        (key_matched, Json.jarr (x.matched_keywords.map Json.jstr)),
        (key_missing, Json.jarr (x.missing_keywords.map Json.jstr)) ] key_weaknesses
      = some (Json.jarr (x.weaknesses.map Json.jstr)) from rfl]
  rw [show objGet
      [ (key_review, Json.jstr x.review),
        (key_strengths, Json.jarr (x.strengths.map Json.jstr)),
        (key_weaknesses, Json.jarr (x.weaknesses.map Json.jstr)),
        (key_suggestions, Json.jarr (x.suggestions.map Json.jstr)),
        (key_matched, Json.jarr (x.matched_keywords.map Json.jstr)),
        (key_missing, Json.jarr (x.missing_keywords.map Json.jstr)) ] key_suggestions
      = some (Json.jarr (x.suggestions.map Json.jstr)) from rfl]
  rw [show objGet
      [ (key_review, Json.jstr x.review),
        (key_strengths, Json.jarr (x.strengths.map Json.jstr)),
        (key_weaknesses, Json.jarr (x.weaknesses.map Json.jstr)),
        (key_suggestions, Json.jarr (x.suggestions.map Json.jstr)),
        (key_matched, Json.jarr (x.matched_keywords.map Json.jstr)),
        (key_missing, Json.jarr (x.missing_keywords.map Json.jstr)) ] key_matched
      = some (Json.jarr (x.matched_keywords.map Json.jstr)) from rfl]
  rw [show objGet
      [ (key_review, Json.jstr x.review),
        (key_strengths, Json.jarr (x.strengths.map Json.jstr)),
        (key_weaknesses, Json.jarr (x.weaknesses.map Json.jstr)),
        (key_suggestions, Json.jarr (x.suggestions.map Json.jstr)),
        (key_matched, Json.jarr (x.matched_keywords.map Json.jstr)),
        (key_missing, Json.jarr (x.missing_keywords.map Json.jstr)) ] key_missing
      = some (Json.jarr (x.missing_keywords.map Json.jstr)) from rfl]
  rw [validateFields]
  simp only [Option.some_bind]
  rw [show pyStr (Json.jstr x.review) = some x.review from rfl]
  rw [show pyStrList (Json.jarr (x.strengths.map Json.jstr))
      = strElems (x.strengths.map Json.jstr) from rfl]
  rw [show pyStrList (Json.jarr (x.weaknesses.map Json.jstr))
      = strElems (x.weaknesses.map Json.jstr) from rfl]
  rw [show pyStrList (Json.jarr (x.suggestions.map Json.jstr))
      = strElems (x.suggestions.map Json.jstr) from rfl]
  rw [show pyStrList (Json.jarr (x.matched_keywords.map Json.jstr))
      = strElems (x.matched_keywords.map Json.jstr) from rfl]
  rw [show pyStrList (Json.jarr (x.missing_keywords.map Json.jstr))
      = strElems (x.missing_keywords.map Json.jstr) from rfl]
  rw [strElems_map, strElems_map, strElems_map, strElems_map, strElems_map]

/-- The search returns the anchored attempt of the head offset when that
attempt succeeds. -/
theorem findFence_head {s g : List Char} (hs : s ≠ []) (h : fenceAt s = some g) :
    findFence s = some g := by
  cases s with
  | nil => exact absurd rfl hs
  | cons c t => rw [findFence, h]

/-- On a text that is exactly one fenced block with brace-delimited content,
the anchored attempt at offset zero captures exactly the content. -/
theorem fenceAt_fenceWrap {d : List Char} (hh : d.head? = some '\x7b')
    (hl : d.getLast? = some '\x7d') : fenceAt (fenceWrap d) = some d := by
  cases d with
  | nil => simp at hh
  | cons c d0 =>
  have hc : c = '\x7b' := by simpa using hh
  subst hc
  have hred : fenceAt (fenceWrap ('\x7b' :: d0))
      = match lastHit (groupCloses ('\x7b' :: (d0 ++ ('\n' :: fenceTicks))))
          (('\x7b' :: (d0 ++ ('\n' :: fenceTicks))).length + 1) with
        | some n => some (('\x7b' :: (d0 ++ ('\n' :: fenceTicks))).take n)
        | none => none := rfl
  have hlen : ('\x7b' :: (d0 ++ ('\n' :: fenceTicks))).length = d0.length + 5 := by
    simp [List.length_cons, List.length_append, fenceTicks]
  have ht1 : List.take (d0.length + 2) ('\x7b' :: (d0 ++ ('\n' :: fenceTicks)))
      = ('\x7b' :: d0) ++ [ '\n' ] := by
    show List.take (('\x7b' :: d0).length + 1) (('\x7b' :: d0) ++ ('\n' :: fenceTicks)) = _
    rw [List.take_append]
    rfl
  have ht2 : List.take (d0.length + 3) ('\x7b' :: (d0 ++ ('\n' :: fenceTicks)))
      = ('\x7b' :: d0) ++ [ '\n', '\x60' ] := by
    show List.take (('\x7b' :: d0).length + 2) (('\x7b' :: d0) ++ ('\n' :: fenceTicks)) = _
    rw [List.take_append]
    rfl
  have ht3 : List.take (d0.length + 4) ('\x7b' :: (d0 ++ ('\n' :: fenceTicks)))
      = ('\x7b' :: d0) ++ [ '\n', '\x60', '\x60' ] := by
    show List.take (('\x7b' :: d0).length + 3) (('\x7b' :: d0) ++ ('\n' :: fenceTicks)) = _
    rw [List.take_append]
    rfl
  have ht4 : List.take (d0.length + 5) ('\x7b' :: (d0 ++ ('\n' :: fenceTicks)))
      = ('\x7b' :: d0) ++ [ '\n', '\x60', '\x60', '\x60' ] := by
    show List.take (('\x7b' :: d0).length + 4) (('\x7b' :: d0) ++ ('\n' :: fenceTicks)) = _
    rw [List.take_append]
    rfl
  have hg1 : groupCloses ('\x7b' :: (d0 ++ ('\n' :: fenceTicks))) (d0.length + 2) = false := by
    rw [groupCloses, ht1, List.getLast?_append]
    rfl
  have hg2 : groupCloses ('\x7b' :: (d0 ++ ('\n' :: fenceTicks))) (d0.length + 3) = false := by
    rw [groupCloses, ht2, List.getLast?_append]
    rfl
  have hg3 : groupCloses ('\x7b' :: (d0 ++ ('\n' :: fenceTicks))) (d0.length + 4) = false := by
    rw [groupCloses, ht3, List.getLast?_append]
    rfl
  have hg4 : groupCloses ('\x7b' :: (d0 ++ ('\n' :: fenceTicks))) (d0.length + 5) = false := by
    rw [groupCloses, ht4, List.getLast?_append]
    rfl
  have htL : List.take (d0.length + 1) ('\x7b' :: (d0 ++ ('\n' :: fenceTicks)))
      = '\x7b' :: d0 := by
    show List.take (('\x7b' :: d0).length) (('\x7b' :: d0) ++ ('\n' :: fenceTicks)) = _
    exact List.take_left _ _
  have hdL : List.drop (d0.length + 1) ('\x7b' :: (d0 ++ ('\n' :: fenceTicks)))
      = '\n' :: fenceTicks := by
    show List.drop (('\x7b' :: d0).length) (('\x7b' :: d0) ++ ('\n' :: fenceTicks)) = _
    exact List.drop_left _ _
  have hgL : groupCloses ('\x7b' :: (d0 ++ ('\n' :: fenceTicks))) (d0.length + 1) = true := by
    rw [groupCloses, htL, hdL, hl]
    rfl
  have hlast : lastHit (groupCloses ('\x7b' :: (d0 ++ ('\n' :: fenceTicks))))
      (('\x7b' :: (d0 ++ ('\n' :: fenceTicks))).length + 1) = some (d0.length + 1) := by
    rw [hlen]
    rw [show d0.length + 5 + 1 = (d0.length + 5) + 1 from rfl, lastHit,
      if_neg (by simp [hg4])]
    rw [show d0.length + 5 = (d0.length + 4) + 1 from rfl, lastHit,
      if_neg (by simp [hg3])]
    rw [show d0.length + 4 = (d0.length + 3) + 1 from rfl, lastHit,
      if_neg (by simp [hg2])]
    rw [show d0.length + 3 = (d0.length + 2) + 1 from rfl, lastHit,
      if_neg (by simp [hg1])]
    rw [show d0.length + 2 = (d0.length + 1) + 1 from rfl, lastHit,
      if_pos (by simp [hgL])]
  rw [hred, hlast]
  show some (List.take (d0.length + 1) ('\x7b' :: (d0 ++ ('\n' :: fenceTicks)))) = _
  rw [htL]

/-- C2 (amended): for every correctly shaped six-field model `x`, the
Response Extractor inverts serialization when the text is wrapped in a
fenced JSON block; without fencing it inverts serialization provided the
fence search finds no match inside the serialized text itself.  (The
unconditional unfenced claim fails: a field value can embed a fence
pattern, see the counterexample.) -/
theorem C2_round_trip (x : ResumeReviewResponse) :
    extractReview (fenceWrap (dumpsRR x)) = .ok x ∧
    (findFence (dumpsRR x) = none → extractReview (dumpsRR x) = .ok x) := by
  have hms : dumpsRR x = ('\x7b' :: dumpsMembers
      [ (key_review, Json.jstr x.review),
        (key_strengths, Json.jarr (x.strengths.map Json.jstr)),
        (key_weaknesses, Json.jarr (x.weaknesses.map Json.jstr)),
        (key_suggestions, Json.jarr (x.suggestions.map Json.jstr)),
        (key_matched, Json.jarr (x.matched_keywords.map Json.jstr)),
        (key_missing, Json.jarr (x.missing_keywords.map Json.jstr)) ]) ++ [ '\x7d' ] := rfl
  have hh : (dumpsRR x).head? = some '\x7b' := rfl
  have hl : (dumpsRR x).getLast? = some '\x7d' := by
    rw [hms, List.getLast?_append]
    rfl
  constructor
  · have hne : fenceWrap (dumpsRR x) ≠ [] := by
      intro hcon
      have hq : (fenceWrap (dumpsRR x)).head? = some '\x60' := rfl
      rw [hcon] at hq
      cases hq
    have hfw : geminiCandidate (fenceWrap (dumpsRR x)) = dumpsRR x := by
      rw [geminiCandidate, findFence_head hne (fenceAt_fenceWrap hh hl)]
    rw [extractReview, hfw, json_loads_dumpsRR]
    show validateRR (rrToJson x) = .ok x
    exact validateRR_rrToJson x
  · intro hnone
    have hcand : geminiCandidate (dumpsRR x) = dumpsRR x := by
      rw [geminiCandidate, hnone]
      exact stripPy_eq_self hh (by decide) hl (by decide)
    rw [extractReview, hcand, json_loads_dumpsRR]
    show validateRR (rrToJson x) = .ok x
    exact validateRR_rrToJson x

deriving instance DecidableEq for Except

/-- C2 counterexample: the unfenced half of the round-trip property is not
unconditional.  A review text that itself spells a fenced empty object makes
the serialized model match the fence pattern, the candidate shrinks to the
embedded braces, and extraction does not return the original model. -/
theorem C2_counterexample :
    extractReview (dumpsRR ⟨("\x60\x60\x60json \x7b\x7d \x60\x60\x60").data,
        [], [], [], [], []⟩)
      ≠ .ok ⟨("\x60\x60\x60json \x7b\x7d \x60\x60\x60").data, [], [], [], [], []⟩ := by
  decide

/-- C2 witness: the round trip at a concrete model, fenced and unfenced. -/
theorem C2_round_trip_witness :
    extractReview (fenceWrap (dumpsRR ⟨("ok").data, [ ("a").data ], [], [], [], []⟩))
        = .ok ⟨("ok").data, [ ("a").data ], [], [], [], []⟩ ∧
    extractReview (dumpsRR ⟨("ok").data, [ ("a").data ], [], [], [], []⟩)
        = .ok ⟨("ok").data, [ ("a").data ], [], [], [], []⟩ :=
  ⟨(C2_round_trip ⟨("ok").data, [ ("a").data ], [], [], [], []⟩).1,
   (C2_round_trip ⟨("ok").data, [ ("a").data ], [], [], [], []⟩).2 (by decide)⟩

/-- C1 witness: at a concrete single-fence text the fenced branch of the
candidate-selection characterisation applies, and the candidate is the
captured brace group. -/
theorem C1_candidate_selection_witness :
    geminiCandidate (("pre \x60\x60\x60json\n\x7b\"a\": \"1\"\x7d\n\x60\x60\x60 post").data)
      = ("\x7b\"a\": \"1\"\x7d").data := by
  obtain ⟨i, _, _, _, h⟩ := (C1_candidate_selection
      (("pre \x60\x60\x60json\n\x7b\"a\": \"1\"\x7d\n\x60\x60\x60 post").data)
      (("\x7b\"a\": \"1\"\x7d").data)).1 (by decide)
  exact h
